import Mathlib

/-!
Model-symmetry builder, missing-branch-length default and block-coordinate optimisation
driver: a shallow embedding of `examples/lbfgsb/src/pll-lbfgsb.c`.

* The objective values the loop control computes with and tests (`logl`, `cur_logl`, the
  values returned by the optimizers) are IEEE-754 binary64 doubles: type `Double`, with
  round-to-nearest-even arithmetic, infinities and NaN (signed zeros are not told apart;
  no excess precision, the program asks for SSE arithmetic).
* Parameter values that the driver only stores, copies and prints (frequencies, rates,
  alpha, p-inv, branch lengths) are carried as exact rationals (`ℚ`).
* C `int` values are modelled as `Int` / `Nat`; no arithmetic here can overflow.
* Heap arrays are lists, pointers into the tree arena are indices, `NULL` is `none`.
* Library routines declared in `pll_optimize.h` (not part of this source file) are
  parameters of the model: see `Flags` and `Collaborators`.
* `printf` progress lines inside the loop and `time (NULL)` have no effect on the
  state and are left out; the report printed after the loop is `main_report`.
-/

namespace PllLbfgsb

/-! ## Double arithmetic -/

/-- A C `double`: NaN, the two infinities, or a finite value (held as a rational; the
results of arithmetic are always rounded, a value that comes in from outside is not
required to be representable). -/
inductive Double where
  | nan
  | ninf
  | pinf
  | fin (q : ℚ)
  deriving DecidableEq

/-- Rounding of a non-negative rational to the nearest integer, ties to even. -/
def round_half_even (m : ℚ) : ℤ :=
  if m - ⌊m⌋ < 1 / 2 then ⌊m⌋
  else if 1 / 2 < m - ⌊m⌋ then ⌊m⌋ + 1
  else if ⌊m⌋ % 2 = 0 then ⌊m⌋ else ⌊m⌋ + 1

/-- Rounding of an exact result to binary64, round-to-nearest-even: 53 significant bits,
least normal exponent -1022 (below it the spacing stays `2 ^ -1074`), overflow to an
infinity from `2 ^ 1024 - 2 ^ 970` on. -/
def round_to_double (x : ℚ) : Double :=
  if x = 0 then .fin 0
  else
    let e : ℤ := max (Int.log 2 |x|) (-1022)
    let ulp : ℚ := 2 ^ (e - 52)
    let v : ℚ := round_half_even (|x| / ulp) * ulp
    if 2 ^ (1024 : ℕ) ≤ v then (if x < 0 then .ninf else .pinf)
    else .fin (if x < 0 then -v else v)

/-- Multiplication by `-1` (`x *= -1`): exact, it only flips the sign. -/
def Double.neg : Double → Double
  | .nan => .nan
  | .ninf => .pinf
  | .pinf => .ninf
  | .fin q => .fin (-q)

/-- Addition of doubles. -/
def Double.add : Double → Double → Double
  | .nan, _ => .nan
  | _, .nan => .nan
  | .pinf, .ninf => .nan
  | .ninf, .pinf => .nan
  | .pinf, _ => .pinf
  | _, .pinf => .pinf
  | .ninf, _ => .ninf
  | _, .ninf => .ninf
  | .fin a, .fin b => round_to_double (a + b)

/-- Subtraction of doubles. -/
def Double.sub : Double → Double → Double
  | .nan, _ => .nan
  | _, .nan => .nan
  | .pinf, .pinf => .nan
  | .ninf, .ninf => .nan
  | .pinf, _ => .pinf
  | _, .ninf => .pinf
  | .ninf, _ => .ninf
  | _, .pinf => .ninf
  | .fin a, .fin b => round_to_double (a - b)

/-- The library function `fabs`. -/
def Double.fabs : Double → Double
  | .nan => .nan
  | .ninf => .pinf
  | .pinf => .pinf
  | .fin q => .fin |q|

/-- The comparison `a > b` of doubles; false as soon as one side is NaN. -/
def Double.gt : Double → Double → Bool
  | .nan, _ => false
  | _, .nan => false
  | .pinf, .pinf => false
  | .pinf, _ => true
  | _, .pinf => false
  | .ninf, _ => false
  | .fin _, .ninf => true
  | .fin a, .fin b => decide (b < a)

/-! ## Constants (lines 28-40) -/

/-- Constant: `#define OPT_EPSILON 1e-2`, the double nearest to 1/100, which is
`5764607523034235 * 2 ^ -59` (bit pattern `0x3F847AE147AE147B`); see `opt_epsilon_eq`. -/
def OPT_EPSILON : Double := .fin (5764607523034235 / 576460752303423488)

/-- Constant: `#define STATES 4`. -/
def STATES : Nat := 4

/-- Constant: `#define RATE_CATS 4`. -/
def RATE_CATS : Nat := 4

/-- Constant: `#define SUBST_PARAMS (STATES*(STATES-1)/2)`. -/
def SUBST_PARAMS : Nat := STATES * (STATES - 1) / 2

/-- Constant: `#define OPTIMIZE_BRANCHES 1`. -/
def OPTIMIZE_BRANCHES : Nat := 1

/-- Constant: `#define OPTIMIZE_SUBST_PARAMS 1`. -/
def OPTIMIZE_SUBST_PARAMS : Nat := 1

/-- Constant: `#define OPTIMIZE_ALPHA 1`. -/
def OPTIMIZE_ALPHA : Nat := 1

/-- Constant: `#define OPTIMIZE_FREQS 1`. -/
def OPTIMIZE_FREQS : Nat := 1

/-- Constant: `#define OPTIMIZE_PINV 0`. -/
def OPTIMIZE_PINV : Nat := 0

/-- Constant: `#define OPT_PARAM_EPSILON 1e-4`. -/
def OPT_PARAM_EPSILON : ℚ := 1 / 10000

/-! ## `set_missing_branch_length` (lines 42-70) -/

/-- One `pll_utree_t` record, restricted to the fields the function touches.
`next` and `back` are pointers into the arena (`none` is `NULL`). -/
structure pll_utree_t where
  length : ℚ
  next : Option Nat
  back : Option Nat
  deriving DecidableEq

/-- Function `set_missing_branch_length_recursive (tree, length)`, lines 42-63, over an arena of
records. `!tree->length` is `length = 0`. The first argument is recursion fuel; `none`
is returned when the fuel runs out or a pointer that the C code dereferences is `NULL`
or dangling. -/
def set_missing_branch_length_recursive :
    Nat → List pll_utree_t → Option Nat → ℚ → Option (List pll_utree_t)
  | _, heap, none, _ => some heap
  | 0, _, some _, _ => none
  | fuel + 1, heap, some tree, length =>
    match heap[tree]? with
    | none => none
    | some t =>
      let heap1 := if t.length = 0 then heap.set tree { t with length := length } else heap
      match t.next with
      | none => some heap1
      | some nx =>
        match heap1[nx]? with
        | none => none
        | some tn =>
          let heap2 :=
            if tn.length = 0 then heap1.set nx { tn with length := length } else heap1
          match tn.next with
          | none => none
          | some nn =>
            match heap2[nn]? with
            | none => none
            | some tnn =>
              let heap3 :=
                if tnn.length = 0 then heap2.set nn { tnn with length := length } else heap2
              match set_missing_branch_length_recursive fuel heap3 tn.back length with
              | none => none
              | some heap4 =>
                set_missing_branch_length_recursive fuel heap4 tnn.back length

/-- Function `set_missing_branch_length (tree, length)`, lines 66-70. As in the source, the
`length` argument is not used: both recursive calls pass the literal `0.000001`. -/
def set_missing_branch_length (fuel : Nat) (heap : List pll_utree_t) (tree : Nat)
    (_length : ℚ) : Option (List pll_utree_t) :=
  match set_missing_branch_length_recursive fuel heap (some tree) (1 / 1000000) with
  | none => none
  | some heap1 =>
    match heap1[tree]? with
    | none => none
    | some t => set_missing_branch_length_recursive fuel heap1 t.back (1 / 1000000)

/-- The unrooted tree with three tips a, b, c joined at one inner node, branch lengths
`la`, `lb`, `lc` (a length that is absent from the newick string is `0`).
Records 0, 1, 2 are the ring of the inner node, records 3, 4, 5 the tips. -/
def example_tree (la lb lc : ℚ) : List pll_utree_t :=
  [ ⟨la, some 1, some 3⟩, ⟨lb, some 2, some 4⟩, ⟨lc, some 0, some 5⟩,
    ⟨la, none, some 0⟩, ⟨lb, none, some 1⟩, ⟨lc, none, some 2⟩ ]

/-! ## `fatal` and `build_model_symmetries` (lines 72-105) -/

/-- The two ways `build_model_symmetries` ends the process: a failed `assert`
(line 85, `abort`) or a call to `fatal` (lines 72-80: message on `stderr`, then
`exit (EXIT_FAILURE)`). -/
inductive Failure where
  | assertion
  | fatal (msg : String)
  deriving DecidableEq

/-- Local state of `build_model_symmetries`: `next_index`, the result array
`subst_matrix_symmetries` and the ten-entry table `t`. -/
structure SymState where
  next_index : Int
  subst_matrix_symmetries : List Int
  t : List Int
  deriving DecidableEq

/-- State before the main loop (lines 87-91): `next_index = 0`, the result array is
`calloc`-ed (all zero), every entry of `t` is `-1`. -/
def symmetries_init : SymState :=
  { next_index := 0
    subst_matrix_symmetries := List.replicate SUBST_PARAMS 0
    t := List.replicate 10 (-1) }

/-- Body of the loop at lines 92-103 for index `i`. -/
def symmetries_step (modelmatrix : List Char) (i : Nat) (st : SymState) :
    Except Failure SymState :=
  let v : Int := ((modelmatrix.getD i (Char.ofNat 0)).toNat : Int) - (('0').toNat : Int)
  if v < 0 ∨ v > 9 then
    .error (.fatal "Error in the model symmetries matrix")
  else
    let st1 : SymState :=
      if st.t.getD v.toNat 0 = -1 then
        { st with t := st.t.set v.toNat st.next_index, next_index := st.next_index + 1 }
      else st
    .ok { st1 with
          subst_matrix_symmetries := st1.subst_matrix_symmetries.set i (st1.t.getD v.toNat 0) }

/-- The loop `for (i = 0; i < SUBST_PARAMS; i++)`: `symmetries_loop mm n i st` runs the
remaining `n` iterations starting at index `i`. -/
def symmetries_loop (modelmatrix : List Char) : Nat → Nat → SymState → Except Failure SymState
  | 0, _, st => .ok st
  | n + 1, i, st =>
    match symmetries_step modelmatrix i st with
    | .error e => .error e
    | .ok st1 => symmetries_loop modelmatrix n (i + 1) st1

/-- Function `build_model_symmetries (modelmatrix)`, lines 82-105. The C string is the
list of its characters, one `Char` per C `char`; `strlen` is its length. The `assert` of
line 85 is active (the file does not define `NDEBUG`). -/
def build_model_symmetries (modelmatrix : String) : Except Failure (List Int) :=
  if modelmatrix.length ≠ SUBST_PARAMS then .error .assertion
  else
    match symmetries_loop modelmatrix.data SUBST_PARAMS 0 symmetries_init with
    | .error e => .error e
    | .ok st => .ok st.subst_matrix_symmetries

/-- The value `v` computed at line 94 for position `j`, as a table index. -/
def digitAt (mm : List Char) (j : Nat) : Nat :=
  (((mm.getD j (Char.ofNat 0)).toNat : Int) - (('0').toNat : Int)).toNat

/-- Position `j` passes the check of line 95. -/
def validAt (mm : List Char) (j : Nat) : Prop :=
  ¬ ((((mm.getD j (Char.ofNat 0)).toNat : Int) - (('0').toNat : Int)) < 0 ∨
     (((mm.getD j (Char.ofNat 0)).toNat : Int) - (('0').toNat : Int)) > 9)

/-- Loop invariant of `build_model_symmetries` after `i` of `N` iterations. -/
structure SymInv (mm : List Char) (N i : Nat) (st : SymState) : Prop where
  tlen : st.t.length = 10
  slen : st.subst_matrix_symmetries.length = N
  nonneg : 0 ≤ st.next_index
  le_i : st.next_index ≤ i
  range : ∀ d, d < 10 → st.t.getD d 0 = -1 ∨ (0 ≤ st.t.getD d 0 ∧ st.t.getD d 0 < st.next_index)
  seen : ∀ d, d < 10 → (st.t.getD d 0 ≠ -1 ↔ ∃ j, j < i ∧ digitAt mm j = d)
  inj : ∀ d d2, d < 10 → d2 < 10 → st.t.getD d 0 = st.t.getD d2 0 → st.t.getD d 0 ≠ -1 → d = d2
  dense : ∀ k : Int, 0 ≤ k → k < st.next_index →
    ∃ j, j < i ∧ st.subst_matrix_symmetries.getD j 0 = k
  tab : ∀ j, j < i → st.subst_matrix_symmetries.getD j 0 = st.t.getD (digitAt mm j) 0
  valid : ∀ j, j < i → digitAt mm j < 10
  fresh : ∀ j, j < i →
    (∃ j2, j2 < j ∧ st.subst_matrix_symmetries.getD j2 0 = st.subst_matrix_symmetries.getD j 0) ∨
    (j = 0 ∧ st.subst_matrix_symmetries.getD j 0 = 0) ∨
    (∃ j2, j2 < j ∧ st.subst_matrix_symmetries.getD j 0 = st.subst_matrix_symmetries.getD j2 0 + 1 ∧
      ∀ j3, j3 < j → st.subst_matrix_symmetries.getD j3 0 ≤ st.subst_matrix_symmetries.getD j2 0)

/-! ## The optimisation driver in `main` (lines 217-331) -/

/-- The `PLL_PARAMETER_*` bit flags of `pll_optimize.h`. The header is not part of this
source file, so the values are parameters of the model. -/
structure Flags where
  PLL_PARAMETER_SUBST_RATES : Nat
  PLL_PARAMETER_ALPHA : Nat
  PLL_PARAMETER_PINV : Nat
  PLL_PARAMETER_FREQUENCIES : Nat
  PLL_PARAMETER_BRANCH_LENGTHS : Nat
  PLL_PARAMETER_SINGLE_BRANCH : Nat

/-- The record `params.lk_params.where.unrooted_t`: the five central-edge identifiers. -/
structure UnrootedWhere where
  parent_clv_index : Int
  parent_scaler_index : Int
  child_clv_index : Int
  child_scaler_index : Int
  edge_pmatrix_index : Int
  deriving DecidableEq

/-- Everything the library routines can reach through `&params` and `tree`:
the fields of `params` and `params.lk_params`, the array `branch_lengths` (the local
of `main` and `params.lk_params.branch_lengths` are the same pointer, line 219), the
fields of `partition` that `main` reads, the records of `tree`, and `ext` for all the
rest (CLVs, probability matrices, operations, matrix indices). -/
structure Env (E : Type) where
  which_parameters : Nat
  freq_ratios : List ℚ
  params_index : Nat
  subst_params_symmetries : List Int
  factr : ℚ
  pgtol : ℚ
  alpha_value : ℚ
  freqs_index : Nat
  rooted : Int
  where_unrooted_t : UnrootedWhere
  branch_lengths : List ℚ
  states : Nat
  frequencies : List (List ℚ)
  subst_params : List (List ℚ)
  prop_invar : List ℚ
  tree : List pll_utree_t
  ext : E

/-- Locals of `main` that no library routine can reach: the bitmask
`parameters_to_optimize` and the central-edge identifiers returned by
`pll_traverse_utree` (lines 173-175). None of them is assigned after that. -/
structure Locals where
  parameters_to_optimize : Nat
  clv1 : Int
  scaler1 : Int
  clv2 : Int
  scaler2 : Int
  edge_pmatrix_index : Int

/-- The two optimisation routines of `pll_optimize.h` called by the loop; each may
change anything in the environment and returns the new objective value. -/
structure Collaborators (E : Type) where
  pll_optimize_parameters_lbfgsb : Env E → Env E × Double
  pll_optimize_branch_lengths_iterative : Env E → Env E × Double

/-- Which of the two routines a call went to. -/
inductive Optimizer where
  | lbfgsb
  | branch_lengths_iterative
  deriving DecidableEq

/-- Log entry of one call: the routine, the environment handed over and the value
returned. -/
structure Invocation (E : Type) where
  optimizer : Optimizer
  arg : Env E
  ret : Double

/-- State of the loop: the locals `logl` and `cur_logl`, the environment, and `calls`,
a ghost log of the calls made so far (oldest first). -/
structure Driver (E : Type) where
  logl : Double
  cur_logl : Double
  env : Env E
  calls : List (Invocation E)

/-- The mask computed at lines 236-241 from the `OPTIMIZE_*` constants. -/
def shipped_parameters_to_optimize (F : Flags) : Nat :=
  (OPTIMIZE_SUBST_PARAMS * F.PLL_PARAMETER_SUBST_RATES) |||
  (OPTIMIZE_ALPHA * F.PLL_PARAMETER_ALPHA) |||
  (OPTIMIZE_BRANCHES * F.PLL_PARAMETER_BRANCH_LENGTHS) |||
  (OPTIMIZE_PINV * F.PLL_PARAMETER_PINV) |||
  (OPTIMIZE_FREQS * F.PLL_PARAMETER_FREQUENCIES)

/-- The central-edge identifiers held in the locals of `main`. -/
def central_edge (lc : Locals) : UnrootedWhere :=
  { parent_clv_index := lc.clv1
    parent_scaler_index := lc.scaler1
    child_clv_index := lc.clv2
    child_scaler_index := lc.scaler2
    edge_pmatrix_index := lc.edge_pmatrix_index }

/-- Lines 217-245: fill in `params`, then `logl *= -1; cur_logl = logl + 10`.
The argument `logl` is the value returned by `pll_compute_edge_loglikelihood`.
The literals 0.1 and 1e-4 go into fields the driver only stores and are kept as the
rationals 1/10 and 1/10000. -/
def driver_init {E : Type} (lc : Locals) (subst_params_symmetries : List Int)
    (e0 : Env E) (logl : Double) : Driver E :=
  let e : Env E :=
    { e0 with
      alpha_value := 1 / 10
      freqs_index := 0
      rooted := 0
      where_unrooted_t := central_edge lc
      params_index := 0
      subst_params_symmetries := subst_params_symmetries
      factr := 100000000
      pgtol := OPT_PARAM_EPSILON }
  let logl := Double.neg logl
  { logl := logl, cur_logl := Double.add logl (.fin 10), env := e, calls := [] }

/-- Lines 254-260: `freq_ratios[i] = frequencies[i] / frequencies[states - 1]` for
`i` in `0 .. states - 2`. -/
def compute_freq_ratios (frequencies : List ℚ) (states : Nat) : List ℚ :=
  (List.range (states - 1)).map
    (fun i => frequencies.getD i 0 / frequencies.getD (states - 1) 0)

/-- Lines 250-269, the frequencies block. After the call the ratio buffer is freed. -/
def optimize_freqs {E : Type} (C : Collaborators E) (F : Flags) (s : Driver E) : Driver E :=
  let e1 : Env E :=
    { s.env with
      freq_ratios :=
        compute_freq_ratios (s.env.frequencies.getD s.env.freqs_index []) s.env.states }
  let e2 : Env E := { e1 with which_parameters := F.PLL_PARAMETER_FREQUENCIES }
  let r := C.pll_optimize_parameters_lbfgsb e2
  { s with
    cur_logl := r.2
    env := { r.1 with freq_ratios := [] }
    calls := s.calls ++ [{ optimizer := .lbfgsb, arg := e2, ret := r.2 }] }

/-- Lines 271-284, the branch-length block: the call, then
`params.lk_params.branch_lengths[0] = branch_lengths[0]` and the five assignments that
restore the central edge from the locals. -/
def optimize_branches {E : Type} (C : Collaborators E) (F : Flags) (lc : Locals)
    (s : Driver E) : Driver E :=
  let e1 : Env E := { s.env with which_parameters := F.PLL_PARAMETER_SINGLE_BRANCH }
  let r := C.pll_optimize_branch_lengths_iterative e1
  let e2 : Env E :=
    { r.1 with
      branch_lengths := r.1.branch_lengths.set 0 (r.1.branch_lengths.getD 0 0)
      where_unrooted_t :=
        { parent_clv_index := lc.clv1
          parent_scaler_index := lc.scaler1
          child_clv_index := lc.clv2
          child_scaler_index := lc.scaler2
          edge_pmatrix_index := lc.edge_pmatrix_index } }
  { s with
    cur_logl := r.2
    env := e2
    calls := s.calls ++ [{ optimizer := .branch_lengths_iterative, arg := e1, ret := r.2 }] }

/-- Lines 286-311: the three blocks of the shape
`params.which_parameters = which; cur_logl = pll_optimize_parameters_lbfgsb (&params)`. -/
def optimize_lbfgsb {E : Type} (C : Collaborators E) (which : Nat) (s : Driver E) : Driver E :=
  let e1 : Env E := { s.env with which_parameters := which }
  let r := C.pll_optimize_parameters_lbfgsb e1
  { s with
    cur_logl := r.2
    env := r.1
    calls := s.calls ++ [{ optimizer := .lbfgsb, arg := e1, ret := r.2 }] }

/-- Body of the `while` loop, lines 248-313. -/
def loop_body {E : Type} (C : Collaborators E) (F : Flags) (lc : Locals) (s : Driver E) :
    Driver E :=
  let s0 : Driver E := { s with logl := s.cur_logl }
  let s1 := if lc.parameters_to_optimize &&& F.PLL_PARAMETER_FREQUENCIES ≠ 0
    then optimize_freqs C F s0 else s0
  let s2 := if lc.parameters_to_optimize &&& F.PLL_PARAMETER_BRANCH_LENGTHS ≠ 0
    then optimize_branches C F lc s1 else s1
  let s3 := if lc.parameters_to_optimize &&& F.PLL_PARAMETER_SUBST_RATES ≠ 0
    then optimize_lbfgsb C F.PLL_PARAMETER_SUBST_RATES s2 else s2
  let s4 := if lc.parameters_to_optimize &&& F.PLL_PARAMETER_ALPHA ≠ 0
    then optimize_lbfgsb C F.PLL_PARAMETER_ALPHA s3 else s3
  let s5 := if lc.parameters_to_optimize &&& F.PLL_PARAMETER_PINV ≠ 0
    then optimize_lbfgsb C F.PLL_PARAMETER_PINV s4 else s4
  s5

/-- The loop test `fabs (cur_logl - logl) > OPT_EPSILON` of line 246. -/
def loop_test {E : Type} (s : Driver E) : Bool :=
  Double.gt (Double.fabs (Double.sub s.cur_logl s.logl)) OPT_EPSILON

/-- The loop `while (fabs (cur_logl - logl) > OPT_EPSILON)`, lines 246-314, with fuel.
The second argument counts the iterations executed so far; the result is that count
and the state at loop exit, or `none` when the fuel runs out first. -/
def main_loop {E : Type} (C : Collaborators E) (F : Flags) (lc : Locals) :
    Nat → Nat → Driver E → Option (Nat × Driver E)
  | 0, _, _ => none
  | fuel + 1, n, s =>
    if loop_test s = true then
      main_loop C F lc fuel (n + 1) (loop_body C F lc s)
    else some (n, s)

/-- Lines 316-331: `cur_logl *= -1` and the values printed after the loop, each with
its label, in order (the elapsed time and the newick string are left out). -/
def main_report {E : Type} (s : Driver E) : List (String × List Double) :=
  let cur_logl := Double.neg s.cur_logl
  [ ("Final Log-L", [cur_logl]),
    ("Alpha", [.fin s.env.alpha_value]),
    ("P-inv", [.fin (s.env.prop_invar.getD 0 0)]),
    ("Rates",
      (List.range 6).map (fun i => Double.fin ((s.env.subst_params.getD 0 []).getD i 0))),
    ("Final Log-L", [s.logl]) ]

/-- Lines 217-331 of `main`: initialise, run the loop, report. -/
def main_optimize {E : Type} (C : Collaborators E) (F : Flags) (lc : Locals)
    (subst_params_symmetries : List Int) (e0 : Env E) (logl : Double) (fuel : Nat) :
    Option (List (String × List Double)) :=
  (main_loop C F lc fuel 0 (driver_init lc subst_params_symmetries e0 logl)).map
    (fun r => main_report r.2)

/-- State after `k` executions of the loop body, whether or not the loop test would
have let them run. -/
def after_rounds {E : Type} (C : Collaborators E) (F : Flags) (lc : Locals) (s : Driver E)
    (k : Nat) : Driver E :=
  (loop_body C F lc)^[k] s

/-! ## The specification's view of a round -/

/-- The five parameter blocks of the specification. -/
inductive Block where
  | frequencies
  | branch_lengths
  | subst_rates
  | alpha
  | pinv
  deriving DecidableEq

/-- The fixed order of the specification:
frequencies, branch lengths, substitution rates, alpha, p-inv. -/
def Block.fixed_order : List Block :=
  [.frequencies, .branch_lengths, .subst_rates, .alpha, .pinv]

/-- The configuration bit of a block. -/
def Block.flag (F : Flags) : Block → Nat
  | .frequencies => F.PLL_PARAMETER_FREQUENCIES
  | .branch_lengths => F.PLL_PARAMETER_BRANCH_LENGTHS
  | .subst_rates => F.PLL_PARAMETER_SUBST_RATES
  | .alpha => F.PLL_PARAMETER_ALPHA
  | .pinv => F.PLL_PARAMETER_PINV

/-- How a block is handed to an optimizer: the routine and the value of
`params.which_parameters` at the call. -/
def Block.signature (F : Flags) : Block → Optimizer × Nat
  | .frequencies => (.lbfgsb, F.PLL_PARAMETER_FREQUENCIES)
  | .branch_lengths => (.branch_lengths_iterative, F.PLL_PARAMETER_SINGLE_BRANCH)
  | .subst_rates => (.lbfgsb, F.PLL_PARAMETER_SUBST_RATES)
  | .alpha => (.lbfgsb, F.PLL_PARAMETER_ALPHA)
  | .pinv => (.lbfgsb, F.PLL_PARAMETER_PINV)

/-- The parameter values of a block in the environment; for the branch lengths these
are the array `branch_lengths` and the lengths stored in the tree records. -/
def Block.values {E : Type} : Block → Env E → List (List ℚ)
  | .frequencies, e => e.frequencies
  | .branch_lengths, e => [e.branch_lengths, e.tree.map (fun t => t.length)]
  | .subst_rates, e => e.subst_params
  | .alpha, e => [[e.alpha_value]]
  | .pinv, e => [e.prop_invar]

/-- The library routine behind each value of `Optimizer`. -/
def Optimizer.apply {E : Type} (C : Collaborators E) : Optimizer → Env E → Env E × Double
  | .lbfgsb => C.pll_optimize_parameters_lbfgsb
  | .branch_lengths_iterative => C.pll_optimize_branch_lengths_iterative

/-- What the driver hands to the optimizer of a block: the environment with
`which_parameters` set to the selector of the block and, for the frequencies, the
ratio buffer filled. -/
def Block.handed {E : Type} (F : Flags) : Block → Env E → Env E
  | .frequencies, e =>
    { e with
      freq_ratios := compute_freq_ratios (e.frequencies.getD e.freqs_index []) e.states
      which_parameters := F.PLL_PARAMETER_FREQUENCIES }
  | .branch_lengths, e => { e with which_parameters := F.PLL_PARAMETER_SINGLE_BRANCH }
  | .subst_rates, e => { e with which_parameters := F.PLL_PARAMETER_SUBST_RATES }
  | .alpha, e => { e with which_parameters := F.PLL_PARAMETER_ALPHA }
  | .pinv, e => { e with which_parameters := F.PLL_PARAMETER_PINV }

/-- What the driver does to the environment the optimizer of a block leaves behind:
the ratio buffer is released after the frequencies, the central edge (and element 0 of
the branch-length array) is written back after the branch lengths, nothing otherwise. -/
def Block.after {E : Type} (lc : Locals) : Block → Env E → Env E
  | .frequencies, e => { e with freq_ratios := [] }
  | .branch_lengths, e =>
    { e with
      branch_lengths := e.branch_lengths.set 0 (e.branch_lengths.getD 0 0)
      where_unrooted_t := central_edge lc }
  | .subst_rates, e => e
  | .alpha, e => e
  | .pinv, e => e

/-- One block of a round as the specification words it: invoke the optimizer of the
block on the environment handed over, take the environment it leaves behind, and set
`current` to the value it returns. -/
def Block.invoke {E : Type} (C : Collaborators E) (F : Flags) (lc : Locals) (b : Block)
    (s : Driver E) : Driver E :=
  { logl := s.logl
    cur_logl := ((b.signature F).1.apply C (b.handed F s.env)).2
    env := b.after lc ((b.signature F).1.apply C (b.handed F s.env)).1
    calls := s.calls ++
      [{ optimizer := (b.signature F).1
         arg := b.handed F s.env
         ret := ((b.signature F).1.apply C (b.handed F s.env)).2 }] }

/-- The block of the source that handles a block of the specification. -/
def Block.run {E : Type} (C : Collaborators E) (F : Flags) (lc : Locals) :
    Block → Driver E → Driver E
  | .frequencies, s => optimize_freqs C F s
  | .branch_lengths, s => optimize_branches C F lc s
  | .subst_rates, s => optimize_lbfgsb C F.PLL_PARAMETER_SUBST_RATES s
  | .alpha, s => optimize_lbfgsb C F.PLL_PARAMETER_ALPHA s
  | .pinv, s => optimize_lbfgsb C F.PLL_PARAMETER_PINV s

/-- The blocks whose bit is set in the mask, in the fixed order. -/
def enabled_blocks (F : Flags) (mask : Nat) : List Block :=
  Block.fixed_order.filter (fun b => mask &&& b.flag F ≠ 0)

/-- Routine and `which_parameters` of a logged call. -/
def Invocation.signature {E : Type} (c : Invocation E) : Optimizer × Nat :=
  (c.optimizer, c.arg.which_parameters)

/-- A round as the specification words it: set `best` to `current`, then, for each
enabled block in the fixed order, invoke its optimizer and set `current` to the value
returned. -/
def spec_round {E : Type} (C : Collaborators E) (F : Flags) (lc : Locals) (s : Driver E) :
    Driver E :=
  (enabled_blocks F lc.parameters_to_optimize).foldl (fun st b => b.invoke C F lc st)
    { s with logl := s.cur_logl }

/-- Modelled from the spec: the inverse re-parameterisation used inside the frequency
adapter of `pll_optimize` (not part of this source file): frequencies are recovered by
normalising `[ratio_0, …, ratio_{states-2}, 1]` to sum to 1. -/
def ratios_to_frequencies (freq_ratios : List ℚ) : List ℚ :=
  (freq_ratios ++ [1]).map (fun x => x / (freq_ratios ++ [1]).sum)

/-- Modelled from the spec: `pll_optimize_parameters_lbfgsb` (in `pll_optimize`, not part
of this source file) reads the central edge of the evaluation context and leaves it
as it is. -/
def lbfgsb_keeps_central_edge {E : Type} (C : Collaborators E) : Prop :=
  ∀ e : Env E, (C.pll_optimize_parameters_lbfgsb e).1.where_unrooted_t = e.where_unrooted_t

/-! ## Concrete inputs used in the examples -/

/-- Sample values for the bit flags: six distinct bits. -/
def example_flags : Flags := ⟨1, 2, 4, 8, 16, 32⟩

/-- Sample environment: the parameter values `main` starts from. -/
def example_env : Env Unit :=
  { which_parameters := 0, freq_ratios := [], params_index := 0, subst_params_symmetries := [],
    factr := 0, pgtol := 0, alpha_value := 0, freqs_index := 0, rooted := 0,
    where_unrooted_t := ⟨0, 0, 0, 0, 0⟩, branch_lengths := [1, 1, 1], states := 4,
    frequencies := [[1/4, 1/4, 1/4, 1/4]], subst_params := [[1, 1, 1, 1, 1, 1]],
    prop_invar := [0], tree := example_tree 1 1 1, ext := () }

/-- Optimizers that find no improvement: they change nothing and return `v`. -/
def constant_collaborators (v : Double) : Collaborators Unit :=
  { pll_optimize_parameters_lbfgsb := fun e => (e, v)
    pll_optimize_branch_lengths_iterative := fun e => (e, v) }

/-- As `constant_collaborators`, but the branch-length routine re-roots: it overwrites
the five central-edge identifiers. -/
def rerooting_collaborators (v : Double) : Collaborators Unit :=
  { pll_optimize_parameters_lbfgsb := fun e => (e, v)
    pll_optimize_branch_lengths_iterative :=
      fun e => ({ e with where_unrooted_t := ⟨7, 7, 7, 7, 7⟩ }, v) }

/-- Optimizers that leave a mark: the L-BFGS-B routine halves alpha and returns a value
that depends on the selector it was called with, the branch-length routine halves the
branch lengths, overwrites the central edge and returns 60. -/
def probing_collaborators : Collaborators Unit :=
  { pll_optimize_parameters_lbfgsb :=
      fun e => ({ e with alpha_value := e.alpha_value / 2 },
        match e.which_parameters with
        | 8 => .fin 58
        | 1 => .fin 51
        | 2 => .fin 52
        | _ => .fin 50)
    pll_optimize_branch_lengths_iterative :=
      fun e => ({ e with
                  branch_lengths := e.branch_lengths.map (fun x => x / 2)
                  where_unrooted_t := ⟨7, 7, 7, 7, 7⟩ }, .fin 60) }

/-- Sample locals: the shipped mask and some central-edge identifiers. -/
def example_locals : Locals := ⟨shipped_parameters_to_optimize example_flags, 4, 0, 1, -1, 0⟩

/-! ## The model-symmetry builder -/

theorem getD_set_int (l : List Int) (i j : Nat) (a : Int) :
    (l.set i a).getD j 0 = if i = j ∧ i < l.length then a else l.getD j 0 := by
  simp only [List.getD_eq_getElem?_getD, List.getElem?_set]
  by_cases h : i = j
  · subst h
    by_cases h2 : i < l.length
    · simp [h2]
    · simp [h2]
      rw [List.getElem?_eq_none (by omega)]
      rfl
  · simp [h]

theorem digitAt_lt (mm : List Char) (j : Nat) (h : validAt mm j) : digitAt mm j < 10 := by
  unfold validAt at h
  unfold digitAt
  omega

theorem getD_replicate_int (n d : Nat) (a : Int) (h : d < n) :
    (List.replicate n a).getD d 0 = a := by
  rw [List.getD_eq_getElem?_getD, List.getElem?_replicate]
  simp [h]

theorem symmetries_init_t (d : Nat) (hd : d < 10) : symmetries_init.t.getD d 0 = -1 :=
  getD_replicate_int 10 d (-1) hd

theorem symInv_init (mm : List Char) : SymInv mm SUBST_PARAMS 0 symmetries_init := by
  refine ⟨by simp [symmetries_init], by simp [symmetries_init], by simp [symmetries_init],
    by simp [symmetries_init], ?_, ?_, ?_, ?_, ?_, ?_, ?_⟩
  · intro d hd
    exact Or.inl (symmetries_init_t d hd)
  · intro d hd
    constructor
    · intro h
      exact absurd (symmetries_init_t d hd) h
    · rintro ⟨j, hj, _⟩
      omega
  · intro d d2 hd hd2 _ h
    exact absurd (symmetries_init_t d hd) h
  · intro k h0 h1
    simp [symmetries_init] at h1
    omega
  · intro j hj; omega
  · intro j hj; omega
  · intro j hj; omega

theorem symInv_step_old (mm : List Char) (N i : Nat) (st : SymState) (hi : i < N)
    (hd : digitAt mm i < 10) (inv : SymInv mm N i st)
    (hold : st.t.getD (digitAt mm i) 0 ≠ -1) :
    SymInv mm N (i + 1)
      { st with subst_matrix_symmetries :=
          st.subst_matrix_symmetries.set i (st.t.getD (digitAt mm i) 0) } := by
  obtain ⟨tlen, slen, nonneg, le_i, range, seen, inj, dense, tab, valid, fresh⟩ := inv
  have hS : ∀ j, (st.subst_matrix_symmetries.set i (st.t.getD (digitAt mm i) 0)).getD j 0
      = if i = j then st.t.getD (digitAt mm i) 0 else st.subst_matrix_symmetries.getD j 0 := by
    intro j
    rw [getD_set_int]
    by_cases h : i = j
    · simp [h, slen]; omega
    · simp [h]
  have hSlt : ∀ j, j < i → (st.subst_matrix_symmetries.set i (st.t.getD (digitAt mm i) 0)).getD j 0
      = st.subst_matrix_symmetries.getD j 0 := by
    intro j hj
    rw [hS, if_neg (by omega)]
  obtain ⟨j0, hj0, hj0d⟩ := (seen _ hd).1 hold
  refine ⟨tlen, by simp [slen], nonneg, by show st.next_index ≤ _; omega, range, ?_, inj, ?_, ?_,
    ?_, ?_⟩
  · intro d hd2
    rw [seen d hd2]
    constructor
    · rintro ⟨j, hj, e⟩
      exact ⟨j, by omega, e⟩
    · rintro ⟨j, hj, e⟩
      by_cases hji : j = i
      · subst hji
        exact ⟨j0, hj0, by rw [hj0d, e]⟩
      · exact ⟨j, by omega, e⟩
  · intro k h0 h1
    obtain ⟨j, hj, e⟩ := dense k h0 h1
    exact ⟨j, by omega, by rw [hSlt j hj]; exact e⟩
  · intro j hj
    show (st.subst_matrix_symmetries.set i (st.t.getD (digitAt mm i) 0)).getD j 0 = _
    by_cases hji : j = i
    · subst hji
      rw [hS, if_pos rfl]
    · rw [hSlt j (by omega)]
      exact tab j (by omega)
  · intro j hj
    by_cases hji : j = i
    · subst hji; exact hd
    · exact valid j (by omega)
  · intro j hj
    show (∃ j2, j2 < j ∧ (st.subst_matrix_symmetries.set i (st.t.getD (digitAt mm i) 0)).getD j2 0
        = (st.subst_matrix_symmetries.set i (st.t.getD (digitAt mm i) 0)).getD j 0) ∨
      (j = 0 ∧ (st.subst_matrix_symmetries.set i (st.t.getD (digitAt mm i) 0)).getD j 0 = 0) ∨
      (∃ j2, j2 < j ∧ (st.subst_matrix_symmetries.set i (st.t.getD (digitAt mm i) 0)).getD j 0
          = (st.subst_matrix_symmetries.set i (st.t.getD (digitAt mm i) 0)).getD j2 0 + 1 ∧
        ∀ j3, j3 < j → (st.subst_matrix_symmetries.set i (st.t.getD (digitAt mm i) 0)).getD j3 0
          ≤ (st.subst_matrix_symmetries.set i (st.t.getD (digitAt mm i) 0)).getD j2 0)
    by_cases hji : j = i
    · subst hji
      left
      refine ⟨j0, hj0, ?_⟩
      rw [hSlt j0 hj0, hS j, if_pos rfl, tab j0 hj0, hj0d]
    · have hj2 : j < i := by omega
      rcases fresh j hj2 with ⟨j2, h2, e⟩ | ⟨h0, e⟩ | ⟨j2, h2, e, hmax⟩
      · left
        exact ⟨j2, h2, by rw [hSlt j2 (by omega), hSlt j hj2]; exact e⟩
      · right; left
        exact ⟨h0, by rw [hSlt j hj2]; exact e⟩
      · right; right
        refine ⟨j2, h2, by rw [hSlt j2 (by omega), hSlt j hj2]; exact e, ?_⟩
        intro j3 h3
        rw [hSlt j3 (by omega), hSlt j2 (by omega)]
        exact hmax j3 h3

theorem symInv_step_new (mm : List Char) (N i : Nat) (st : SymState) (hi : i < N)
    (hd : digitAt mm i < 10) (inv : SymInv mm N i st)
    (hnew : st.t.getD (digitAt mm i) 0 = -1) :
    SymInv mm N (i + 1)
      { next_index := st.next_index + 1
        subst_matrix_symmetries := st.subst_matrix_symmetries.set i
          ((st.t.set (digitAt mm i) st.next_index).getD (digitAt mm i) 0)
        t := st.t.set (digitAt mm i) st.next_index } := by
  obtain ⟨tlen, slen, nonneg, le_i, range, seen, inj, dense, tab, valid, fresh⟩ := inv
  have hT : ∀ x, (st.t.set (digitAt mm i) st.next_index).getD x 0
      = if digitAt mm i = x then st.next_index else st.t.getD x 0 := by
    intro x
    rw [getD_set_int]
    by_cases h : digitAt mm i = x
    · simp [h, tlen]; omega
    · simp [h]
  rw [hT (digitAt mm i), if_pos rfl]
  have hS : ∀ j, (st.subst_matrix_symmetries.set i st.next_index).getD j 0
      = if i = j then st.next_index else st.subst_matrix_symmetries.getD j 0 := by
    intro j
    rw [getD_set_int]
    by_cases h : i = j
    · simp [h, slen]; omega
    · simp [h]
  have hSlt : ∀ j, j < i → (st.subst_matrix_symmetries.set i st.next_index).getD j 0
      = st.subst_matrix_symmetries.getD j 0 := by
    intro j hj
    rw [hS, if_neg (by omega)]
  have hfresh : ∀ j, j < i → digitAt mm j ≠ digitAt mm i := by
    intro j hj e
    have := (seen _ hd).2 ⟨j, hj, e⟩
    exact this hnew
  have hlt : ∀ j, j < i → st.subst_matrix_symmetries.getD j 0 < st.next_index ∧
      0 ≤ st.subst_matrix_symmetries.getD j 0 := by
    intro j hj
    rw [tab j hj]
    have h1 := (seen _ (valid j hj)).2 ⟨j, hj, rfl⟩
    rcases range _ (valid j hj) with h | h
    · exact absurd h h1
    · exact ⟨h.2, h.1⟩
  refine ⟨by simp [tlen], by simp [slen], by show 0 ≤ st.next_index + 1; omega,
    by show st.next_index + 1 ≤ _; omega, ?_, ?_, ?_, ?_, ?_, ?_, ?_⟩
  · intro x hx
    show (st.t.set (digitAt mm i) st.next_index).getD x 0 = -1 ∨
      (0 ≤ (st.t.set (digitAt mm i) st.next_index).getD x 0 ∧
        (st.t.set (digitAt mm i) st.next_index).getD x 0 < st.next_index + 1)
    rw [hT]
    by_cases h : digitAt mm i = x
    · rw [if_pos h]; right; omega
    · rw [if_neg h]
      rcases range x hx with h1 | h1
      · exact Or.inl h1
      · right; omega
  · intro x hx
    show (st.t.set (digitAt mm i) st.next_index).getD x 0 ≠ -1 ↔ _
    rw [hT]
    by_cases h : digitAt mm i = x
    · rw [if_pos h]
      constructor
      · intro _
        exact ⟨i, by omega, h⟩
      · intro _
        omega
    · rw [if_neg h, seen x hx]
      constructor
      · rintro ⟨j, hj, e⟩
        exact ⟨j, by omega, e⟩
      · rintro ⟨j, hj, e⟩
        by_cases hji : j = i
        · subst hji; exact absurd e h
        · exact ⟨j, by omega, e⟩
  · intro x y hx hy
    show (st.t.set (digitAt mm i) st.next_index).getD x 0
        = (st.t.set (digitAt mm i) st.next_index).getD y 0 →
      (st.t.set (digitAt mm i) st.next_index).getD x 0 ≠ -1 → x = y
    rw [hT x, hT y]
    by_cases h1 : digitAt mm i = x <;> by_cases h2 : digitAt mm i = y
    · intro _ _; rw [← h1, ← h2]
    · rw [if_pos h1, if_neg h2]
      intro e _
      rcases range y hy with h | h <;> omega
    · rw [if_neg h1, if_pos h2]
      intro e ne
      rcases range x hx with h | h
      · exact absurd h ne
      · omega
    · rw [if_neg h1, if_neg h2]
      exact inj x y hx hy
  · intro k h0 h1
    show ∃ j, j < i + 1 ∧ (st.subst_matrix_symmetries.set i st.next_index).getD j 0 = k
    by_cases hk : k = st.next_index
    · exact ⟨i, by omega, by rw [hS, if_pos rfl, hk]⟩
    · have h2 : k < st.next_index := by
        change k < st.next_index + 1 at h1
        omega
      obtain ⟨j, hj, e⟩ := dense k h0 h2
      exact ⟨j, by omega, by rw [hSlt j hj]; exact e⟩
  · intro j hj
    show (st.subst_matrix_symmetries.set i st.next_index).getD j 0
      = (st.t.set (digitAt mm i) st.next_index).getD (digitAt mm j) 0
    by_cases hji : j = i
    · subst hji
      rw [hS, if_pos rfl, hT, if_pos rfl]
    · have hj2 : j < i := by omega
      rw [hSlt j hj2, hT, if_neg (fun e => hfresh j hj2 e.symm)]
      exact tab j hj2
  · intro j hj
    by_cases hji : j = i
    · subst hji; exact hd
    · exact valid j (by omega)
  · intro j hj
    show (∃ j2, j2 < j ∧ (st.subst_matrix_symmetries.set i st.next_index).getD j2 0
        = (st.subst_matrix_symmetries.set i st.next_index).getD j 0) ∨
      (j = 0 ∧ (st.subst_matrix_symmetries.set i st.next_index).getD j 0 = 0) ∨
      (∃ j2, j2 < j ∧ (st.subst_matrix_symmetries.set i st.next_index).getD j 0
          = (st.subst_matrix_symmetries.set i st.next_index).getD j2 0 + 1 ∧
        ∀ j3, j3 < j → (st.subst_matrix_symmetries.set i st.next_index).getD j3 0
          ≤ (st.subst_matrix_symmetries.set i st.next_index).getD j2 0)
    by_cases hji : j = i
    · subst hji
      right
      by_cases hz : j = 0
      · left
        refine ⟨hz, ?_⟩
        rw [hS, if_pos rfl]
        subst hz
        simp at le_i
        omega
      · right
        have h0 := hlt 0 (by omega)
        obtain ⟨j2, hj2, e⟩ := dense (st.next_index - 1) (by omega) (by omega)
        refine ⟨j2, hj2, ?_, ?_⟩
        · rw [hS, if_pos rfl, hSlt j2 hj2, e]; omega
        · intro j3 h3
          rw [hSlt j3 h3, hSlt j2 hj2, e]
          have := hlt j3 h3
          omega
    · have hj2 : j < i := by omega
      rcases fresh j hj2 with ⟨j2, h2, e⟩ | ⟨h0, e⟩ | ⟨j2, h2, e, hmax⟩
      · left
        exact ⟨j2, h2, by rw [hSlt j2 (by omega), hSlt j hj2]; exact e⟩
      · right; left
        exact ⟨h0, by rw [hSlt j hj2]; exact e⟩
      · right; right
        refine ⟨j2, h2, by rw [hSlt j2 (by omega), hSlt j hj2]; exact e, ?_⟩
        intro j3 h3
        rw [hSlt j3 (by omega), hSlt j2 (by omega)]
        exact hmax j3 h3

theorem symmetries_step_error (mm : List Char) (i : Nat) (st : SymState)
    (hv : ¬ validAt mm i) :
    symmetries_step mm i st = .error (.fatal "Error in the model symmetries matrix") := by
  unfold validAt at hv
  unfold symmetries_step
  simp only []
  rw [if_pos (not_not.1 hv)]

theorem symmetries_step_ok (mm : List Char) (i : Nat) (st : SymState) (hv : validAt mm i) :
    ∃ st2, symmetries_step mm i st = .ok st2 := by
  unfold validAt at hv
  unfold symmetries_step
  simp only []
  rw [if_neg hv]
  exact ⟨_, rfl⟩

theorem symInv_step (mm : List Char) (N i : Nat) (st : SymState) (hi : i < N)
    (hv : validAt mm i) (inv : SymInv mm N i st) :
    ∃ st2, symmetries_step mm i st = .ok st2 ∧ SymInv mm N (i + 1) st2 := by
  have hd := digitAt_lt mm i hv
  have hv2 := hv
  unfold validAt at hv2
  by_cases hnew : st.t.getD (digitAt mm i) 0 = -1
  · refine ⟨_, ?_, symInv_step_new mm N i st hi hd inv hnew⟩
    unfold symmetries_step
    simp only []
    rw [if_neg hv2]
    unfold digitAt at hnew
    rw [if_pos hnew]
    rfl
  · refine ⟨_, ?_, symInv_step_old mm N i st hi hd inv hnew⟩
    unfold symmetries_step
    simp only []
    rw [if_neg hv2]
    unfold digitAt at hnew
    rw [if_neg hnew]
    rfl

theorem symInv_loop (mm : List Char) (N : Nat) :
    ∀ (n i : Nat) (st : SymState), i + n = N → (∀ j, i ≤ j → j < N → validAt mm j) →
      SymInv mm N i st →
      ∃ st2, symmetries_loop mm n i st = .ok st2 ∧ SymInv mm N N st2 := by
  intro n
  induction n with
  | zero =>
    intro i st h _ inv
    have : i = N := by omega
    subst this
    exact ⟨st, rfl, inv⟩
  | succ n ih =>
    intro i st h hv inv
    obtain ⟨st1, e1, inv1⟩ := symInv_step mm N i st (by omega) (hv i (le_refl _) (by omega)) inv
    obtain ⟨st2, e2, inv2⟩ := ih (i + 1) st1 (by omega) (fun j h1 h2 => hv j (by omega) h2) inv1
    refine ⟨st2, ?_, inv2⟩
    simp only [symmetries_loop, e1]
    exact e2

theorem symmetries_loop_error (mm : List Char) :
    ∀ (n i : Nat) (st : SymState), (∃ j, i ≤ j ∧ j < i + n ∧ ¬ validAt mm j) →
      symmetries_loop mm n i st = .error (.fatal "Error in the model symmetries matrix") := by
  intro n
  induction n with
  | zero =>
    rintro i st ⟨j, h1, h2, _⟩
    omega
  | succ n ih =>
    rintro i st ⟨j, h1, h2, h3⟩
    by_cases hv : validAt mm i
    · obtain ⟨st1, e1⟩ := symmetries_step_ok mm i st hv
      simp only [symmetries_loop, e1]
      apply ih
      refine ⟨j, ?_, by omega, h3⟩
      by_contra hlt
      have : j = i := by omega
      subst this
      exact h3 hv
    · simp only [symmetries_loop, symmetries_step_error mm i st hv]

theorem char_digit_iff (c : Char) :
    c.isDigit = true ↔ ¬ (((c.toNat : Int) - (('0').toNat : Int)) < 0 ∨
      ((c.toNat : Int) - (('0').toNat : Int)) > 9) := by
  have h0 : ('0').toNat = 48 := rfl
  rw [h0]
  simp only [Char.isDigit, Bool.and_eq_true, decide_eq_true_eq, ge_iff_le]
  rw [UInt32.le_def, UInt32.le_def]
  simp only [Char.toNat]
  rw [BitVec.le_def, BitVec.le_def]
  have a : (UInt32.toBitVec 48).toNat = 48 := rfl
  have b : (UInt32.toBitVec 57).toNat = 57 := rfl
  rw [a, b]
  have e : c.val.toBitVec.toNat = c.val.toNat := rfl
  rw [e]
  omega

theorem char_toNat_inj (a b : Char) (h : a.toNat = b.toNat) : a = b := by
  apply Char.ext
  cases a with | mk va ha =>
  cases b with | mk vb hb =>
  simp only [Char.toNat] at h
  show va = vb
  cases va with | mk x =>
  cases vb with | mk y =>
  congr
  exact BitVec.eq_of_toNat_eq h

theorem validAt_iff_isDigit (mm : List Char) (j : Nat) :
    validAt mm j ↔ (mm.getD j (Char.ofNat 0)).isDigit = true := by
  unfold validAt
  exact (char_digit_iff _).symm

theorem digitAt_inj (mm : List Char) (i j : Nat) (hi : validAt mm i) (hj : validAt mm j)
    (h : digitAt mm i = digitAt mm j) :
    mm.getD i (Char.ofNat 0) = mm.getD j (Char.ofNat 0) := by
  apply char_toNat_inj
  unfold validAt at hi hj
  unfold digitAt at h
  omega

theorem getD_mem_of_lt (mm : List Char) (j : Nat) (hj : j < mm.length) :
    mm.getD j (Char.ofNat 0) ∈ mm := by
  rw [List.getD_eq_getElem _ _ hj]
  exact List.getElem_mem hj

theorem all_valid (mm : List Char) (hdig : ∀ c ∈ mm, c.isDigit = true) (j : Nat)
    (hj : j < mm.length) : validAt mm j :=
  (validAt_iff_isDigit mm j).2 (hdig _ (getD_mem_of_lt mm j hj))

theorem build_ok (s : String) (hlen : s.length = 6) (hdig : ∀ c ∈ s.data, c.isDigit = true) :
    ∃ st, build_model_symmetries s = .ok st.subst_matrix_symmetries ∧
      SymInv s.data 6 6 st := by
  have hl : s.data.length = 6 := hlen
  obtain ⟨st, e, inv⟩ := symInv_loop s.data 6 6 0 symmetries_init (by omega)
    (fun j _ h => all_valid s.data hdig j (by omega)) (symInv_init s.data)
  refine ⟨st, ?_, inv⟩
  unfold build_model_symmetries
  have h6 : SUBST_PARAMS = 6 := rfl
  rw [h6, if_neg (by simp [hlen]), e]

theorem int_getElem?_getD (l : List Int) (i : Nat) (h : i < l.length) :
    l[i]? = some (l.getD i 0) := by
  rw [List.getD_eq_getElem _ _ h, List.getElem?_eq_getElem h]

theorem char_getElem?_getD (l : List Char) (i : Nat) (h : i < l.length) :
    l[i]? = some (l.getD i (Char.ofNat 0)) := by
  rw [List.getD_eq_getElem _ _ h, List.getElem?_eq_getElem h]

theorem symInv_eq_iff (mm : List Char) (N : Nat) (st : SymState) (inv : SymInv mm N N st)
    (hv : ∀ j, j < N → validAt mm j) (i j : Nat) (hi : i < N) (hj : j < N) :
    st.subst_matrix_symmetries.getD i 0 = st.subst_matrix_symmetries.getD j 0 ↔
      mm.getD i (Char.ofNat 0) = mm.getD j (Char.ofNat 0) := by
  rw [inv.tab i hi, inv.tab j hj]
  constructor
  · intro h
    have h1 := (inv.seen _ (inv.valid i hi)).2 ⟨i, hi, rfl⟩
    exact digitAt_inj mm i j (hv i hi) (hv j hj)
      (inv.inj _ _ (inv.valid i hi) (inv.valid j hj) h h1)
  · intro h
    have : digitAt mm i = digitAt mm j := by
      unfold digitAt
      rw [h]
    rw [this]

/-- C3: for every string of length 6 whose characters are all decimal digits,
`build_model_symmetries` returns a 6-element mapping `g` with `g[i] = g[j]` exactly when
the characters at positions `i` and `j` are the same. -/
theorem build_model_symmetries_groups (s : String) (hlen : s.length = 6)
    (hdig : ∀ c ∈ s.data, c.isDigit = true) :
    ∃ g : List Int, build_model_symmetries s = .ok g ∧ g.length = 6 ∧
      ∀ i j, i < 6 → j < 6 → (g[i]? = g[j]? ↔ s.data[i]? = s.data[j]?) := by
  obtain ⟨st, e, inv⟩ := build_ok s hlen hdig
  have hl : s.data.length = 6 := hlen
  refine ⟨_, e, inv.slen, ?_⟩
  intro i j hi hj
  rw [int_getElem?_getD _ i (by rw [inv.slen]; exact hi),
    int_getElem?_getD _ j (by rw [inv.slen]; exact hj),
    char_getElem?_getD _ i (by omega), char_getElem?_getD _ j (by omega)]
  simp only [Option.some.injEq]
  exact symInv_eq_iff s.data 6 st inv (fun j h => all_valid s.data hdig j (by omega)) i j hi hj

theorem mem_iff_getD (mm : List Char) (c : Char) :
    c ∈ mm ↔ ∃ j, j < mm.length ∧ mm.getD j (Char.ofNat 0) = c := by
  constructor
  · intro h
    obtain ⟨j, hj, e⟩ := List.getElem_of_mem h
    exact ⟨j, hj, by rw [List.getD_eq_getElem _ _ hj]; exact e⟩
  · rintro ⟨j, hj, e⟩
    rw [← e]
    exact getD_mem_of_lt mm j hj

theorem symInv_id_range (mm : List Char) (N : Nat) (st : SymState) (inv : SymInv mm N N st)
    (j : Nat) (hj : j < N) :
    0 ≤ st.subst_matrix_symmetries.getD j 0 ∧
      st.subst_matrix_symmetries.getD j 0 < st.next_index := by
  rw [inv.tab j hj]
  have h1 := (inv.seen _ (inv.valid j hj)).2 ⟨j, hj, rfl⟩
  rcases inv.range _ (inv.valid j hj) with h | h
  · exact absurd h h1
  · exact h

theorem symInv_card (mm : List Char) (N : Nat) (st : SymState) (inv : SymInv mm N N st)
    (hlen : mm.length = N) (hv : ∀ j, j < N → validAt mm j) :
    (mm.dedup.length : Int) = st.next_index := by
  rw [← List.card_toFinset]
  have hcard : mm.toFinset.card = (Finset.range st.next_index.toNat).card := by
    refine Finset.card_bij
      (fun c _ => (st.t.getD ((((c.toNat : Int) - (('0').toNat : Int))).toNat) 0).toNat) ?_ ?_ ?_
    · intro c hc
      simp only [Finset.mem_range]
      rw [List.mem_toFinset, mem_iff_getD] at hc
      obtain ⟨j, hj, e⟩ := hc
      have h := symInv_id_range mm N st inv j (by omega)
      rw [inv.tab j (by omega)] at h
      unfold digitAt at h
      rw [e] at h
      omega
    · intro a ha b hb hab
      rw [List.mem_toFinset, mem_iff_getD] at ha hb
      obtain ⟨i, hi, ei⟩ := ha
      obtain ⟨j, hj, ej⟩ := hb
      have h1 := symInv_id_range mm N st inv i (by omega)
      have h2 := symInv_id_range mm N st inv j (by omega)
      have h3 := (symInv_eq_iff mm N st inv hv i j (by omega) (by omega)).1
      rw [ei, ej] at h3
      apply h3
      rw [inv.tab i (by omega)] at h1 ⊢
      rw [inv.tab j (by omega)] at h2 ⊢
      unfold digitAt at h1 h2 ⊢
      rw [ei] at h1 ⊢
      rw [ej] at h2 ⊢
      simp only at hab
      omega
    · intro k hk
      rw [Finset.mem_range] at hk
      obtain ⟨j, hj, e⟩ := inv.dense (k : Int) (by omega) (by omega)
      refine ⟨mm.getD j (Char.ofNat 0), ?_, ?_⟩
      · rw [List.mem_toFinset]
        exact getD_mem_of_lt mm j (by omega)
      · have := inv.tab j hj
        unfold digitAt at this
        simp only
        rw [← this, e]
        simp
  rw [hcard, Finset.card_range]
  have := inv.nonneg
  omega

/-- C4: for every string of length 6 over decimal digits the ids are dense and given in
order of first appearance: `g[0] = 0`, the ids used are exactly `0, ..., k-1` with `k` the
number of distinct characters, and each later position holds either an id used at an
earlier position or one more than the largest earlier id. -/
theorem build_model_symmetries_first_appearance (s : String) (hlen : s.length = 6)
    (hdig : ∀ c ∈ s.data, c.isDigit = true) :
    ∃ g : List Int, build_model_symmetries s = .ok g ∧ g.length = 6 ∧
      g[0]? = some 0 ∧
      (∀ x : Int, x ∈ g ↔ 0 ≤ x ∧ x < (s.data.dedup.length : Int)) ∧
      (∀ i, 1 ≤ i → i < 6 →
        (∃ j, j < i ∧ g[j]? = g[i]?) ∨
        (∃ j m, j < i ∧ g[j]? = some m ∧ g[i]? = some (m + 1) ∧
          ∀ j2 y, j2 < i → g[j2]? = some y → y ≤ m)) := by
  obtain ⟨st, e, inv⟩ := build_ok s hlen hdig
  have hl : s.data.length = 6 := hlen
  have hv : ∀ j, j < 6 → validAt s.data j := fun j h => all_valid s.data hdig j (by omega)
  have hg : ∀ j, j < 6 → st.subst_matrix_symmetries[j]? =
      some (st.subst_matrix_symmetries.getD j 0) :=
    fun j h => int_getElem?_getD _ j (by rw [inv.slen]; exact h)
  refine ⟨_, e, inv.slen, ?_, ?_, ?_⟩
  · rw [hg 0 (by omega)]
    rcases inv.fresh 0 (by omega) with ⟨j2, h2, _⟩ | ⟨_, h⟩ | ⟨j2, h2, _⟩
    · omega
    · rw [h]
    · omega
  · intro x
    rw [symInv_card s.data 6 st inv hl hv]
    constructor
    · intro hx
      obtain ⟨j, hj, e2⟩ := List.getElem_of_mem hx
      rw [inv.slen] at hj
      have := symInv_id_range s.data 6 st inv j hj
      rw [List.getD_eq_getElem _ _ (by rw [inv.slen]; exact hj), e2] at this
      exact this
    · rintro ⟨h0, h1⟩
      obtain ⟨j, hj, e2⟩ := inv.dense x h0 h1
      rw [← e2, List.getD_eq_getElem _ _ (by rw [inv.slen]; exact hj)]
      exact List.getElem_mem _
  · intro i h1 h6
    rcases inv.fresh i h6 with ⟨j2, h2, e2⟩ | ⟨h0, _⟩ | ⟨j2, h2, e2, hmax⟩
    · left
      exact ⟨j2, h2, by rw [hg j2 (by omega), hg i h6, e2]⟩
    · omega
    · right
      refine ⟨j2, _, h2, hg j2 (by omega), by rw [hg i h6, e2], ?_⟩
      intro j3 y h3 hy
      rw [hg j3 (by omega)] at hy
      have := hmax j3 h3
      simp only [Option.some.injEq] at hy
      omega

theorem build_assertion (s : String) (hlen : s.length ≠ 6) :
    build_model_symmetries s = .error .assertion := by
  unfold build_model_symmetries
  have h6 : SUBST_PARAMS = 6 := rfl
  rw [h6, if_pos hlen]

theorem build_fatal (s : String) (hlen : s.length = 6)
    (hbad : ∃ c ∈ s.data, c.isDigit = false) :
    build_model_symmetries s = .error (.fatal "Error in the model symmetries matrix") := by
  obtain ⟨c, hc, hd⟩ := hbad
  obtain ⟨j, hj, e⟩ := (mem_iff_getD s.data c).1 hc
  have hl : s.data.length = 6 := hlen
  have hnv : ¬ validAt s.data j := by
    rw [validAt_iff_isDigit, e, hd]
    simp
  unfold build_model_symmetries
  have h6 : SUBST_PARAMS = 6 := rfl
  rw [h6, if_neg (by simp [hlen]),
    symmetries_loop_error s.data 6 0 symmetries_init ⟨j, by omega, by omega, hnv⟩]

/-- C5: `build_model_symmetries` fails exactly when the length of the string differs from
6 or some character is not a decimal digit (the failed `assert` in the first case, `fatal`
in the second), and returns a mapping for every other input; "01234" and "01234X" are
rejected. -/
theorem build_model_symmetries_failure_iff (s : String) :
    ((∃ e, build_model_symmetries s = .error e) ↔
      (s.length ≠ 6 ∨ ∃ c ∈ s.data, c.isDigit = false)) ∧
    ((∃ g, build_model_symmetries s = .ok g) ↔
      ¬ (s.length ≠ 6 ∨ ∃ c ∈ s.data, c.isDigit = false)) ∧
    (s.length ≠ 6 → build_model_symmetries s = .error .assertion) ∧
    (s.length = 6 → (∃ c ∈ s.data, c.isDigit = false) →
      build_model_symmetries s = .error (.fatal "Error in the model symmetries matrix")) ∧
    (∃ e, build_model_symmetries "01234" = .error e) ∧
    (∃ e, build_model_symmetries "01234X" = .error e) := by
  have key : (s.length ≠ 6 ∨ ∃ c ∈ s.data, c.isDigit = false) →
      ∃ e, build_model_symmetries s = .error e := by
    intro h
    by_cases hlen : s.length = 6
    · rcases h with h | h
      · exact absurd hlen h
      · exact ⟨_, build_fatal s hlen h⟩
    · exact ⟨_, build_assertion s hlen⟩
  have key2 : ¬ (s.length ≠ 6 ∨ ∃ c ∈ s.data, c.isDigit = false) →
      ∃ g, build_model_symmetries s = .ok g := by
    intro h
    push_neg at h
    obtain ⟨st, e, _⟩ := build_ok s h.1 (fun c hc => by simpa using h.2 c hc)
    exact ⟨_, e⟩
  refine ⟨⟨?_, key⟩, ⟨?_, key2⟩, build_assertion s, build_fatal s, ⟨_, rfl⟩, ⟨_, rfl⟩⟩
  · rintro ⟨e, he⟩
    by_contra hn
    obtain ⟨g, hg⟩ := key2 hn
    rw [hg] at he
    cases he
  · rintro ⟨g, hg⟩ hn
    obtain ⟨e, he⟩ := key hn
    rw [hg] at he
    cases he

theorem build_model_symmetries_groups_witness :
    ∃ g : List Int, build_model_symmetries "010101" = .ok g ∧ g.length = 6 ∧
      ∀ i j, i < 6 → j < 6 → (g[i]? = g[j]? ↔ ("010101" : String).data[i]? = ("010101" : String).data[j]?) :=
  build_model_symmetries_groups "010101" (by decide) (by decide)

theorem build_model_symmetries_first_appearance_witness :
    (build_model_symmetries "012345" = .ok [0, 1, 2, 3, 4, 5] ∧
     build_model_symmetries "000000" = .ok [0, 0, 0, 0, 0, 0] ∧
     build_model_symmetries "010101" = .ok [0, 1, 0, 1, 0, 1]) ∧
    (∃ g : List Int, build_model_symmetries "010101" = .ok g ∧ g.length = 6 ∧
      g[0]? = some 0 ∧
      (∀ x : Int, x ∈ g ↔ 0 ≤ x ∧ x < (("010101" : String).data.dedup.length : Int)) ∧
      (∀ i, 1 ≤ i → i < 6 →
        (∃ j, j < i ∧ g[j]? = g[i]?) ∨
        (∃ j m, j < i ∧ g[j]? = some m ∧ g[i]? = some (m + 1) ∧
          ∀ j2 y, j2 < i → g[j2]? = some y → y ≤ m))) :=
  ⟨⟨rfl, rfl, rfl⟩, build_model_symmetries_first_appearance "010101" (by decide) (by decide)⟩

/-! ## Properties of the double arithmetic -/

theorem round_half_even_sub (m : ℚ) : (round_half_even m : ℚ) - m ≤ 1 / 2 := by
  unfold round_half_even
  have h1 := Int.floor_le m
  have h2 := Int.lt_floor_add_one m
  split_ifs with a b c
  · linarith
  · push_cast; linarith
  · linarith
  · push_cast; linarith

theorem round_half_even_nonneg (m : ℚ) (h : 0 ≤ m) : 0 ≤ round_half_even m := by
  unfold round_half_even
  have h1 : 0 ≤ ⌊m⌋ := Int.floor_nonneg.2 h
  split_ifs <;> omega

theorem round_half_even_intCast (n : ℤ) : round_half_even (n : ℚ) = n := by
  unfold round_half_even
  simp

theorem int_log_eq (x : ℚ) (e : ℤ) (hx : 0 < x) (h1 : (2 : ℚ) ^ e ≤ x) (h2 : x < (2 : ℚ) ^ (e + 1)) :
    Int.log 2 x = e := by
  have a : e ≤ Int.log 2 x :=
    (Int.zpow_le_iff_le_log (by norm_num) hx).1 (by exact_mod_cast h1)
  have b : Int.log 2 x < e + 1 :=
    (Int.lt_zpow_iff_log_lt (by norm_num) hx).1 (by exact_mod_cast h2)
  omega

theorem round_to_double_eval (x : ℚ) (e n : ℤ) (hx : x ≠ 0) (he : -1022 ≤ e)
    (h1 : (2 : ℚ) ^ e ≤ |x|) (h2 : |x| < (2 : ℚ) ^ (e + 1))
    (hn : round_half_even (|x| / 2 ^ (e - 52)) = n)
    (hv : (n : ℚ) * 2 ^ (e - 52) < 2 ^ (1024 : ℕ)) :
    round_to_double x
      = .fin (if x < 0 then -((n : ℚ) * 2 ^ (e - 52)) else (n : ℚ) * 2 ^ (e - 52)) := by
  unfold round_to_double
  rw [if_neg hx]
  have hlog : Int.log 2 |x| = e := int_log_eq |x| e (abs_pos.2 hx) h1 h2
  simp only [hlog, max_eq_left he, hn]
  rw [if_neg (not_le.2 hv)]

theorem round_to_double_int (n : ℤ) (h : |n| < 2 ^ (53 : ℕ)) :
    round_to_double (n : ℚ) = .fin (n : ℚ) := by
  by_cases h0 : n = 0
  · subst h0
    simp [round_to_double]
  have hx : (n : ℚ) ≠ 0 := by exact_mod_cast h0
  have hpos : (0 : ℚ) < |(n : ℚ)| := abs_pos.2 hx
  have habs : |(n : ℚ)| = ((|n| : ℤ) : ℚ) := by push_cast; rfl
  have hone : (1 : ℚ) ≤ |(n : ℚ)| := by
    rw [habs]
    have : 1 ≤ |n| := Int.one_le_abs h0
    exact_mod_cast this
  have hl1 := Int.zpow_log_le_self (b := 2) (by norm_num) hpos
  have hl2 := Int.lt_zpow_succ_log_self (b := 2) (by norm_num) |(n : ℚ)|
  have he0 : 0 ≤ Int.log 2 |(n : ℚ)| :=
    (Int.zpow_le_iff_le_log (by norm_num) hpos).1 (by simpa using hone)
  have he52 : Int.log 2 |(n : ℚ)| < 53 :=
    (Int.lt_zpow_iff_log_lt (by norm_num) hpos).1 (by
      have : ((|n| : ℤ) : ℚ) < ((2 ^ (53 : ℕ) : ℤ) : ℚ) := by exact_mod_cast h
      rw [← habs] at this
      norm_num at this ⊢
      exact this)
  obtain ⟨k, hk⟩ : ∃ k : ℕ, (k : ℤ) = 52 - Int.log 2 |(n : ℚ)| :=
    ⟨(52 - Int.log 2 |(n : ℚ)|).toNat, by omega⟩
  have hulp : (2 : ℚ) ^ (Int.log 2 |(n : ℚ)| - 52) = ((2 : ℚ) ^ k)⁻¹ := by
    have : Int.log 2 |(n : ℚ)| - 52 = -(k : ℤ) := by omega
    rw [this, zpow_neg, zpow_natCast]
  have hm : |(n : ℚ)| / ((2 : ℚ) ^ k)⁻¹ = ((|n| * 2 ^ k : ℤ) : ℚ) := by
    rw [habs]
    push_cast
    field_simp
  have hv : ((|n| * 2 ^ k : ℤ) : ℚ) * ((2 : ℚ) ^ k)⁻¹ = |(n : ℚ)| := by
    rw [habs]
    push_cast
    field_simp
  have hbig : |(n : ℚ)| < 2 ^ (1024 : ℕ) := by
    rw [habs]
    have : ((|n| : ℤ) : ℚ) < ((2 ^ (53 : ℕ) : ℤ) : ℚ) := by exact_mod_cast h
    refine lt_trans this ?_
    norm_num
  unfold round_to_double
  rw [if_neg hx]
  simp only [max_eq_left (show (-1022 : ℤ) ≤ Int.log 2 |(n : ℚ)| by omega), hulp, hm,
    round_half_even_intCast, hv]
  rw [if_neg (not_le.2 hbig)]
  by_cases hneg : (n : ℚ) < 0
  · rw [if_pos hneg, abs_of_neg hneg, neg_neg]
  · rw [if_neg hneg, abs_of_nonneg (not_lt.1 hneg)]

theorem round_to_double_small (x : ℚ) (hx : |x| ≤ 1 / 100) :
    ∃ v : ℚ, round_to_double x = .fin v ∧ |v| ≤ 5764607523034235 / 576460752303423488 := by
  by_cases h0 : x = 0
  · subst h0
    exact ⟨0, by simp [round_to_double], by norm_num⟩
  have hpos : (0 : ℚ) < |x| := abs_pos.2 h0
  have hl2 := Int.lt_zpow_succ_log_self (b := 2) (by norm_num) |x|
  have he0 : Int.log 2 |x| < -6 :=
    (Int.lt_zpow_iff_log_lt (by norm_num) hpos).1 (by
      refine lt_of_le_of_lt hx ?_
      norm_num)
  set e : ℤ := max (Int.log 2 |x|) (-1022) with he
  have he7 : e ≤ -7 := by
    rw [he]
    exact max_le (by omega) (by norm_num)
  have hee : Int.log 2 |x| ≤ e := le_max_left _ _
  have hulp : (0 : ℚ) < 2 ^ (e - 52) := zpow_pos (by norm_num) _
  have hm0 : 0 ≤ |x| / 2 ^ (e - 52) := div_nonneg hpos.le hulp.le
  have hn0 : (0 : ℚ) ≤ round_half_even (|x| / 2 ^ (e - 52)) := by
    exact_mod_cast round_half_even_nonneg _ hm0
  have hn1 := round_half_even_sub (|x| / 2 ^ (e - 52))
  have hv0 : 0 ≤ (round_half_even (|x| / 2 ^ (e - 52)) : ℚ) * 2 ^ (e - 52) :=
    mul_nonneg hn0 hulp.le
  have hvle : (round_half_even (|x| / 2 ^ (e - 52)) : ℚ) * 2 ^ (e - 52)
      ≤ 5764607523034235 / 576460752303423488 := by
    by_cases h7 : e = -7
    · have hu : (2 : ℚ) ^ (e - 52) = 1 / 576460752303423488 := by
        rw [h7]
        norm_num [zpow_neg]
      rw [hu] at hn1 ⊢
      have hlt : (round_half_even (|x| / (1 / 576460752303423488)) : ℚ)
          < ((5764607523034236 : ℤ) : ℚ) := by
        have : |x| / (1 / 576460752303423488) ≤ 576460752303423488 / 100 := by
          rw [div_le_iff₀ (by norm_num)]
          linarith
        push_cast
        linarith
      have hle : round_half_even (|x| / (1 / 576460752303423488)) ≤ 5764607523034235 := by
        have := Int.cast_lt.1 hlt
        omega
      have : (round_half_even (|x| / (1 / 576460752303423488)) : ℚ)
          ≤ ((5764607523034235 : ℤ) : ℚ) := Int.cast_le.2 hle
      push_cast at this
      linarith
    · have h8 : e ≤ -8 := by omega
      have hx1 : |x| < (2 : ℚ) ^ (e + 1) :=
        lt_of_lt_of_le (by exact_mod_cast hl2) (zpow_le_zpow_right₀ (by norm_num) (by omega))
      have hx2 : (2 : ℚ) ^ (e + 1) ≤ 2 ^ (-7 : ℤ) := zpow_le_zpow_right₀ (by norm_num) (by omega)
      have hu2 : (2 : ℚ) ^ (e - 52) ≤ 2 ^ (-60 : ℤ) := zpow_le_zpow_right₀ (by norm_num) (by omega)
      have hmul : (round_half_even (|x| / 2 ^ (e - 52)) : ℚ) * 2 ^ (e - 52)
          ≤ |x| + 2 ^ (e - 52) / 2 := by
        have : (round_half_even (|x| / 2 ^ (e - 52)) : ℚ) ≤ |x| / 2 ^ (e - 52) + 1 / 2 := by
          linarith
        calc (round_half_even (|x| / 2 ^ (e - 52)) : ℚ) * 2 ^ (e - 52)
            ≤ (|x| / 2 ^ (e - 52) + 1 / 2) * 2 ^ (e - 52) :=
              mul_le_mul_of_nonneg_right this hulp.le
          _ = |x| + 2 ^ (e - 52) / 2 := by
              field_simp
              ring
      have c1 : (2 : ℚ) ^ (-7 : ℤ) = 1 / 128 := by norm_num [zpow_neg]
      have c2 : (2 : ℚ) ^ (-60 : ℤ) = 1 / 1152921504606846976 := by norm_num [zpow_neg]
      rw [c1] at hx2
      rw [c2] at hu2
      have : |x| + 2 ^ (e - 52) / 2 ≤ 5764607523034235 / 576460752303423488 := by
        have h3 : |x| < 1 / 128 := lt_of_lt_of_le hx1 hx2
        have h4 : (1 : ℚ) / 128 + (1 / 1152921504606846976) / 2
            ≤ 5764607523034235 / 576460752303423488 := by norm_num
        linarith
      linarith
  have hbig : ¬ (2 : ℚ) ^ (1024 : ℕ)
      ≤ (round_half_even (|x| / 2 ^ (e - 52)) : ℚ) * 2 ^ (e - 52) := by
    intro h
    have : (1 : ℚ) ≤ 2 ^ (1024 : ℕ) := one_le_pow₀ (by norm_num)
    have h5 : (5764607523034235 : ℚ) / 576460752303423488 < 1 := by norm_num
    linarith
  refine ⟨if x < 0 then -((round_half_even (|x| / 2 ^ (e - 52)) : ℚ) * 2 ^ (e - 52))
      else (round_half_even (|x| / 2 ^ (e - 52)) : ℚ) * 2 ^ (e - 52), ?_, ?_⟩
  · unfold round_to_double
    rw [if_neg h0]
    simp only [← he]
    rw [if_neg hbig]
  · split_ifs
    · rw [abs_neg, abs_of_nonneg hv0]
      exact hvle
    · rw [abs_of_nonneg hv0]
      exact hvle

theorem gt_fabs_round_small (x : ℚ) (hx : |x| ≤ 1 / 100) :
    Double.gt (Double.fabs (round_to_double x)) OPT_EPSILON = false := by
  obtain ⟨v, hv, hle⟩ := round_to_double_small x hx
  rw [hv]
  show decide (_ < |v|) = false
  rw [decide_eq_false_iff_not]
  exact not_lt.2 hle

theorem opt_epsilon_eq : round_to_double (1 / 100) = OPT_EPSILON := by
  have h := round_to_double_eval (1 / 100) (-7) 5764607523034235 (by norm_num) (by norm_num)
    (by rw [abs_of_pos (by norm_num)]; norm_num [zpow_neg])
    (by rw [abs_of_pos (by norm_num)]; norm_num [zpow_neg])
    (by
      rw [abs_of_pos (by norm_num)]
      have : (1 : ℚ) / 100 / 2 ^ ((-7 : ℤ) - 52) = 144115188075855872 / 25 := by
        norm_num [zpow_neg]
      rw [this]
      have hf : ⌊(144115188075855872 / 25 : ℚ)⌋ = 5764607523034234 := by
        rw [Int.floor_eq_iff]
        constructor <;> norm_num
      unfold round_half_even
      rw [hf]
      norm_num)
    (by norm_num [zpow_neg])
  rw [h]
  unfold OPT_EPSILON
  norm_num [zpow_neg]

theorem sentinel_absorbed : round_to_double (2 ^ (60 : ℕ) + 10) = .fin (2 ^ (60 : ℕ)) := by
  have h := round_to_double_eval (2 ^ (60 : ℕ) + 10) 60 4503599627370496 (by norm_num)
    (by norm_num)
    (by rw [abs_of_pos (by norm_num)]; norm_num)
    (by rw [abs_of_pos (by norm_num)]; norm_num)
    (by
      rw [abs_of_pos (by norm_num)]
      have : ((2 : ℚ) ^ (60 : ℕ) + 10) / 2 ^ ((60 : ℤ) - 52) = 576460752303423493 / 128 := by
        norm_num
      rw [this]
      have hf : ⌊(576460752303423493 / 128 : ℚ)⌋ = 4503599627370496 := by
        rw [Int.floor_eq_iff]
        constructor <;> norm_num
      unfold round_half_even
      rw [hf]
      norm_num)
    (by norm_num)
  rw [h]
  norm_num

/-! ## The driver -/

theorem invoke_eq_run {E : Type} (C : Collaborators E) (F : Flags) (lc : Locals) (b : Block)
    (s : Driver E) : b.invoke C F lc s = b.run C F lc s := by
  cases b <;> rfl

theorem loop_body_eq_fold_run {E : Type} (C : Collaborators E) (F : Flags) (lc : Locals)
    (s : Driver E) :
    loop_body C F lc s
      = (enabled_blocks F lc.parameters_to_optimize).foldl (fun st b => b.run C F lc st)
          { s with logl := s.cur_logl } := by
  unfold loop_body enabled_blocks Block.fixed_order
  by_cases h1 : lc.parameters_to_optimize &&& F.PLL_PARAMETER_FREQUENCIES = 0 <;>
  by_cases h2 : lc.parameters_to_optimize &&& F.PLL_PARAMETER_BRANCH_LENGTHS = 0 <;>
  by_cases h3 : lc.parameters_to_optimize &&& F.PLL_PARAMETER_SUBST_RATES = 0 <;>
  by_cases h4 : lc.parameters_to_optimize &&& F.PLL_PARAMETER_ALPHA = 0 <;>
  by_cases h5 : lc.parameters_to_optimize &&& F.PLL_PARAMETER_PINV = 0 <;>
  simp [List.filter, Block.flag, Block.run, h1, h2, h3, h4, h5]

theorem loop_body_eq_spec_round {E : Type} (C : Collaborators E) (F : Flags) (lc : Locals)
    (s : Driver E) : loop_body C F lc s = spec_round C F lc s := by
  rw [loop_body_eq_fold_run]
  unfold spec_round
  congr 1
  funext st b
  exact (invoke_eq_run C F lc b st).symm

theorem main_loop_continue {E : Type} (C : Collaborators E) (F : Flags) (lc : Locals)
    (fuel n : Nat) (s : Driver E) (h : loop_test s = true) :
    main_loop C F lc (fuel + 1) n s = main_loop C F lc fuel (n + 1) (loop_body C F lc s) := by
  simp only [main_loop, if_pos h]

theorem main_loop_stop {E : Type} (C : Collaborators E) (F : Flags) (lc : Locals)
    (fuel n : Nat) (s : Driver E) (h : loop_test s = false) :
    main_loop C F lc (fuel + 1) n s = some (n, s) := by
  simp [main_loop, h]

theorem main_loop_of_stop {E : Type} (C : Collaborators E) (F : Flags) (lc : Locals) :
    ∀ (k fuel n : Nat) (s : Driver E),
      (∀ j, j < k → loop_test ((loop_body C F lc)^[j] s) = true) →
      loop_test ((loop_body C F lc)^[k] s) = false →
      k < fuel → main_loop C F lc fuel n s = some (n + k, (loop_body C F lc)^[k] s) := by
  intro k
  induction k with
  | zero =>
    intro fuel n s _ hstop hf
    obtain ⟨f, rfl⟩ : ∃ f, fuel = f + 1 := ⟨fuel - 1, by omega⟩
    exact main_loop_stop C F lc f n s hstop
  | succ k ih =>
    intro fuel n s hcont hstop hf
    obtain ⟨f, rfl⟩ : ∃ f, fuel = f + 1 := ⟨fuel - 1, by omega⟩
    rw [main_loop_continue C F lc f n s (hcont 0 (by omega))]
    rw [ih f (n + 1) (loop_body C F lc s)
      (fun j hj => by simpa [Function.iterate_succ_apply] using hcont (j + 1) (by omega))
      (by simpa [Function.iterate_succ_apply] using hstop) (by omega)]
    simp only [Function.iterate_succ_apply]
    congr 2
    omega

theorem main_loop_result {E : Type} (C : Collaborators E) (F : Flags) (lc : Locals) :
    ∀ (fuel n m : Nat) (s r : Driver E), main_loop C F lc fuel n s = some (m, r) →
      ∃ k, m = n + k ∧ r = (loop_body C F lc)^[k] s ∧
        loop_test r = false ∧
        ∀ j, j < k → loop_test ((loop_body C F lc)^[j] s) = true := by
  intro fuel
  induction fuel with
  | zero =>
    intro n m s r h
    simp [main_loop] at h
  | succ f ih =>
    intro n m s r h
    by_cases hg : loop_test s = true
    · rw [main_loop_continue C F lc f n s hg] at h
      obtain ⟨k, h1, h2, h3, h4⟩ := ih (n + 1) m (loop_body C F lc s) r h
      refine ⟨k + 1, by omega, by simpa [Function.iterate_succ_apply] using h2, h3, ?_⟩
      intro j hj
      cases j with
      | zero => simpa using hg
      | succ j => simpa [Function.iterate_succ_apply] using h4 j (by omega)
    · have hg2 : loop_test s = false := by simpa using hg
      rw [main_loop_stop C F lc f n s hg2] at h
      simp only [Option.some.injEq, Prod.mk.injEq] at h
      obtain ⟨h1, h2⟩ := h
      subst h1 h2
      exact ⟨0, by omega, rfl, hg2, fun j hj => by omega⟩

theorem run_logl {E : Type} (C : Collaborators E) (F : Flags) (lc : Locals) (b : Block)
    (s : Driver E) : (b.run C F lc s).logl = s.logl := by
  cases b <;> rfl

theorem foldl_run_logl {E : Type} (C : Collaborators E) (F : Flags) (lc : Locals) :
    ∀ (bs : List Block) (s : Driver E),
      (bs.foldl (fun st b => b.run C F lc st) s).logl = s.logl := by
  intro bs
  induction bs with
  | nil => intro s; rfl
  | cons b bs ih =>
    intro s
    rw [List.foldl_cons, ih, run_logl]

theorem loop_body_logl {E : Type} (C : Collaborators E) (F : Flags) (lc : Locals)
    (s : Driver E) : (loop_body C F lc s).logl = s.cur_logl := by
  rw [loop_body_eq_fold_run, foldl_run_logl]

theorem after_rounds_succ {E : Type} (C : Collaborators E) (F : Flags) (lc : Locals)
    (s : Driver E) (k : Nat) :
    after_rounds C F lc s (k + 1) = loop_body C F lc (after_rounds C F lc s k) := by
  unfold after_rounds
  rw [Function.iterate_succ_apply']

theorem after_rounds_logl {E : Type} (C : Collaborators E) (F : Flags) (lc : Locals)
    (s : Driver E) (k : Nat) :
    (after_rounds C F lc s (k + 1)).logl = (after_rounds C F lc s k).cur_logl := by
  rw [after_rounds_succ, loop_body_logl]

theorem loop_test_nan {E : Type} (s : Driver E) (h : s.cur_logl = .nan ∨ s.logl = .nan) :
    loop_test s = false := by
  unfold loop_test
  rcases h with h | h
  · rw [h]
    cases s.logl <;> rfl
  · rw [h]
    cases s.cur_logl <;> rfl

theorem loop_test_small {E : Type} (s : Driver E) (a b : ℚ) (hc : s.cur_logl = .fin a)
    (hl : s.logl = .fin b) (h : |a - b| ≤ 1 / 100) : loop_test s = false := by
  unfold loop_test
  rw [hc, hl]
  exact gt_fabs_round_small (a - b) h

theorem loop_test_of_int {E : Type} (s : Driver E) (a b : ℚ) (n : ℤ) (hc : s.cur_logl = .fin a)
    (hl : s.logl = .fin b) (hn : a - b = (n : ℚ)) (hb : |n| < 2 ^ (53 : ℕ)) :
    loop_test s = decide ((5764607523034235 : ℚ) / 576460752303423488 < |(n : ℚ)|) := by
  unfold loop_test
  rw [hc, hl]
  show Double.gt (Double.fabs (round_to_double (a - b))) OPT_EPSILON = _
  rw [hn, round_to_double_int n hb]
  rfl

/-- C1, amended: `best` starts as the negated starting log-likelihood and `current` as
that value plus 10 (in double arithmetic); each round begins by setting `best` to
`current`; the loop stops before the first state in which the test
`fabs (current - best) > 1e-2` is false, which is the case whenever one of the two is NaN
or their exact difference is at most 1e-2 in magnitude, and runs another round otherwise;
in particular, if the loop is entered and the first round returns a value within 1e-2 of
the initial `current` (the negated starting log-likelihood plus 10), it stops after
exactly one round. -/
theorem driver_convergence_rule {E : Type} (C : Collaborators E) (F : Flags) (lc : Locals)
    (syms : List Int) (e0 : Env E) (logl0 : Double) :
    (driver_init lc syms e0 logl0).logl = Double.neg logl0 ∧
    (driver_init lc syms e0 logl0).cur_logl = Double.add (Double.neg logl0) (.fin 10) ∧
    (∀ k, (after_rounds C F lc (driver_init lc syms e0 logl0) (k + 1)).logl
        = (after_rounds C F lc (driver_init lc syms e0 logl0) k).cur_logl) ∧
    (∀ fuel n r, main_loop C F lc fuel 0 (driver_init lc syms e0 logl0) = some (n, r) →
      r = after_rounds C F lc (driver_init lc syms e0 logl0) n ∧
      loop_test r = false ∧
      ∀ k, k < n → loop_test (after_rounds C F lc (driver_init lc syms e0 logl0) k) = true) ∧
    (∀ n,
      (∀ k, k < n → loop_test (after_rounds C F lc (driver_init lc syms e0 logl0) k) = true) →
      loop_test (after_rounds C F lc (driver_init lc syms e0 logl0) n) = false →
      ∀ fuel, n < fuel →
        main_loop C F lc fuel 0 (driver_init lc syms e0 logl0)
          = some (n, after_rounds C F lc (driver_init lc syms e0 logl0) n)) ∧
    (∀ s : Driver E, s.cur_logl = .nan ∨ s.logl = .nan → loop_test s = false) ∧
    (∀ (s : Driver E) (a b : ℚ), s.cur_logl = .fin a → s.logl = .fin b →
      |a - b| ≤ 1 / 100 → loop_test s = false) ∧
    (∀ a b : ℚ, loop_test (driver_init lc syms e0 logl0) = true →
      (driver_init lc syms e0 logl0).cur_logl = .fin b →
      (after_rounds C F lc (driver_init lc syms e0 logl0) 1).cur_logl = .fin a →
      |a - b| ≤ 1 / 100 →
      ∀ fuel, 2 ≤ fuel →
        main_loop C F lc fuel 0 (driver_init lc syms e0 logl0)
          = some (1, after_rounds C F lc (driver_init lc syms e0 logl0) 1)) := by
  have hgen : ∀ n,
      (∀ k, k < n → loop_test (after_rounds C F lc (driver_init lc syms e0 logl0) k) = true) →
      loop_test (after_rounds C F lc (driver_init lc syms e0 logl0) n) = false →
      ∀ fuel, n < fuel →
        main_loop C F lc fuel 0 (driver_init lc syms e0 logl0)
          = some (n, after_rounds C F lc (driver_init lc syms e0 logl0) n) := by
    intro n hcont hstop fuel hf
    have := main_loop_of_stop C F lc n fuel 0 (driver_init lc syms e0 logl0) hcont hstop hf
    rw [this, Nat.zero_add]
    rfl
  refine ⟨rfl, rfl, fun k => after_rounds_logl C F lc _ k, ?_, hgen, loop_test_nan,
    loop_test_small, ?_⟩
  · intro fuel n r h
    obtain ⟨k, h1, h2, h3, h4⟩ := main_loop_result C F lc fuel 0 n _ r h
    have hk : n = k := by omega
    subst hk
    exact ⟨h2, h3, h4⟩
  · intro a b hin hb ha hab fuel hf
    refine hgen 1 (fun k hk => ?_) ?_ fuel (by omega)
    · have : k = 0 := by omega
      subst this
      exact hin
    · exact loop_test_small _ a b ha (by rw [after_rounds_logl]; exact hb) hab

theorem monotone_drop {E : Type} (C : Collaborators E) (F : Flags) (lc : Locals)
    (s0 : Driver E) (q : ℕ → ℚ)
    (hfin : ∀ k, 1 ≤ k → (after_rounds C F lc s0 k).cur_logl = .fin (q k))
    (hmono : ∀ k, 1 ≤ k → q (k + 1) ≤ q k)
    (N : Nat)
    (hcont : ∀ k, 2 ≤ k → k ≤ N → loop_test (after_rounds C F lc s0 k) = true) :
    ∀ m, 1 ≤ m → m ≤ N → ((m : ℚ) - 1) * (1 / 100) ≤ q 1 - q m := by
  intro m
  induction m with
  | zero => intro h; omega
  | succ m ih =>
    intro _ hm
    by_cases h1 : m = 0
    · subst h1
      simp
    · have ih2 := ih (by omega) (by omega)
      have hg := hcont (m + 1) (by omega) hm
      have hle := hmono m (by omega)
      have hgap : 1 / 100 < |q (m + 1) - q m| := by
        by_contra hno
        have := loop_test_small (after_rounds C F lc s0 (m + 1)) (q (m + 1)) (q m)
          (hfin (m + 1) (by omega))
          (by rw [after_rounds_logl]; exact hfin m (by omega)) (not_lt.1 hno)
        rw [this] at hg
        cases hg
      rw [abs_of_nonpos (by linarith)] at hgap
      push_cast
      linarith

/-- C10, amended: if the values produced by successive rounds are finite, never increase
and are bounded below by `L`, the loop terminates: for some `n` with
`n <= floor ((v_1 - L) / 0.01) + 2` every amount of fuel above `n` gives exit after `n`
rounds; and `n >= 1` exactly when the entry test `fabs ((s + 10) - s) > 1e-2` on the
negated starting log-likelihood `s` is true in double arithmetic. -/
theorem driver_terminates_monotone {E : Type} (C : Collaborators E) (F : Flags) (lc : Locals)
    (syms : List Int) (e0 : Env E) (logl0 : Double) (q : ℕ → ℚ) (L : ℚ)
    (hfin : ∀ k, 1 ≤ k →
      (after_rounds C F lc (driver_init lc syms e0 logl0) k).cur_logl = .fin (q k))
    (hmono : ∀ k, 1 ≤ k → q (k + 1) ≤ q k)
    (hlow : ∀ k, 1 ≤ k → L ≤ q k) :
    ∃ n : Nat,
      (n : ℤ) ≤ ⌊(q 1 - L) / (1 / 100)⌋ + 2 ∧
      (1 ≤ n ↔ loop_test (driver_init lc syms e0 logl0) = true) ∧
      ∀ fuel, n < fuel →
        main_loop C F lc fuel 0 (driver_init lc syms e0 logl0)
          = some (n, after_rounds C F lc (driver_init lc syms e0 logl0) n) := by
  set s0 := driver_init lc syms e0 logl0 with hs0
  set x : ℚ := (q 1 - L) / (1 / 100) with hx
  have heps : (0 : ℚ) < 1 / 100 := by norm_num
  have hx0 : 0 ≤ x := div_nonneg (by linarith [hlow 1 (le_refl _)]) heps.le
  have hfl : (0 : ℤ) ≤ ⌊x⌋ := Int.floor_nonneg.2 hx0
  obtain ⟨N, hN⟩ : ∃ N : Nat, (N : ℤ) = ⌊x⌋ + 2 := ⟨(⌊x⌋ + 2).toNat, by omega⟩
  have hex : ∃ n, n ≤ N ∧ loop_test (after_rounds C F lc s0 n) = false := by
    by_contra hno
    push_neg at hno
    have hdrop := monotone_drop C F lc s0 q hfin hmono N
      (fun k _ h2 => by simpa using hno k h2) N (by omega) (le_refl _)
    have hLN := hlow N (by omega)
    have hNq : (N : ℚ) = (⌊x⌋ : ℚ) + 2 := by exact_mod_cast hN
    have hlt : x < (⌊x⌋ : ℚ) + 1 := Int.lt_floor_add_one x
    have hxe : x * (1 / 100) = q 1 - L := by
      rw [hx]
      field_simp
    have : ((N : ℚ) - 1) * (1 / 100) ≤ x * (1 / 100) := by
      rw [hxe]
      linarith
    have := le_of_mul_le_mul_right this heps
    linarith
  classical
  have hmin : ∀ m, m < Nat.find hex →
      ¬ (m ≤ N ∧ loop_test (after_rounds C F lc s0 m) = false) :=
    fun m hm => Nat.find_min hex hm
  obtain ⟨h2, h3⟩ := Nat.find_spec hex
  refine ⟨Nat.find hex, by omega, ?_, ?_⟩
  · constructor
    · intro h1
      have := hmin 0 (by omega)
      simpa [after_rounds] using this
    · intro h1
      by_contra hz
      have hz0 : Nat.find hex = 0 := by omega
      rw [hz0] at h3
      have : loop_test s0 = false := h3
      rw [this] at h1
      cases h1
  · intro fuel hf
    have := main_loop_of_stop C F lc (Nat.find hex) fuel 0 s0
      (fun j hj => by
        by_contra hc
        exact hmin j hj ⟨by omega, by simpa using hc⟩)
      h3 hf
    rw [this, Nat.zero_add]
    rfl

theorem run_calls {E : Type} (C : Collaborators E) (F : Flags) (lc : Locals) (b : Block)
    (s : Driver E) :
    ∃ c : Invocation E, (b.run C F lc s).calls = s.calls ++ [c] ∧
      c.signature = b.signature F ∧ (b.run C F lc s).cur_logl = c.ret ∧
      c.ret = (c.optimizer.apply C c.arg).2 := by
  cases b <;> exact ⟨_, rfl, rfl, rfl, rfl⟩

theorem getLast_cons_ret {E : Type} (c : Invocation E) (l : List (Invocation E)) (x : Double) :
    ((c :: l).getLast?.map (fun i => i.ret)).getD x
      = (l.getLast?.map (fun i => i.ret)).getD c.ret := by
  cases l with
  | nil => rfl
  | cons d l =>
    rw [List.getLast?_cons_cons]
    obtain ⟨y, hy⟩ : ∃ y, (d :: l).getLast? = some y :=
      ⟨_, List.getLast?_eq_getLast _ (by simp)⟩
    rw [hy]
    rfl

theorem foldl_run_calls {E : Type} (C : Collaborators E) (F : Flags) (lc : Locals) :
    ∀ (bs : List Block) (s : Driver E),
      ∃ new : List (Invocation E),
        (bs.foldl (fun st b => b.run C F lc st) s).calls = s.calls ++ new ∧
        new.map Invocation.signature = bs.map (Block.signature F) ∧
        (∀ c ∈ new, c.ret = (c.optimizer.apply C c.arg).2) ∧
        (bs.foldl (fun st b => b.run C F lc st) s).cur_logl
          = (new.getLast?.map (fun i => i.ret)).getD s.cur_logl := by
  intro bs
  induction bs with
  | nil => intro s; exact ⟨[], by simp, rfl, fun c hc => absurd hc (List.not_mem_nil c), rfl⟩
  | cons b bs ih =>
    intro s
    obtain ⟨c, hc1, hc2, hc3, hc4⟩ := run_calls C F lc b s
    obtain ⟨new, h1, h2, h3, h4⟩ := ih (b.run C F lc s)
    refine ⟨c :: new, ?_, ?_, ?_, ?_⟩
    · rw [List.foldl_cons, h1, hc1]
      simp
    · simp [h2, hc2]
    · intro d hd
      rcases List.mem_cons.1 hd with rfl | hd
      · exact hc4
      · exact h3 d hd
    · rw [List.foldl_cons, h4, hc3, getLast_cons_ret]

theorem signature_flag (F : Flags) (a b : Block) (h : a.signature F = b.signature F) :
    a.flag F = b.flag F := by
  cases a <;> cases b <;> simp [Block.signature, Block.flag] at h ⊢ <;> exact h

theorem signature_not_enabled (F : Flags) (mask : Nat) (b : Block)
    (hb : mask &&& b.flag F = 0) :
    ∀ a ∈ enabled_blocks F mask, a.signature F ≠ b.signature F := by
  intro a ha e
  unfold enabled_blocks at ha
  rw [List.mem_filter] at ha
  have := ha.2
  rw [signature_flag F a b e] at this
  simp [hb] at this

theorem values_which {E : Type} (b : Block) (e : Env E) (w : Nat) :
    b.values { e with which_parameters := w } = b.values e := by
  cases b <;> rfl

theorem values_freq_ratios {E : Type} (b : Block) (e : Env E) (r : List ℚ) :
    b.values { e with freq_ratios := r } = b.values e := by
  cases b <;> rfl

theorem run_values {E : Type} (C : Collaborators E) (F : Flags) (lc : Locals) (b a : Block)
    (hL : ∀ e : Env E, (Optimizer.lbfgsb, e.which_parameters) ≠ b.signature F →
      b.values (C.pll_optimize_parameters_lbfgsb e).1 = b.values e)
    (hB : ∀ e : Env E, (Optimizer.branch_lengths_iterative, e.which_parameters) ≠ b.signature F →
      b.values (C.pll_optimize_branch_lengths_iterative e).1 = b.values e)
    (hne : a.signature F ≠ b.signature F) (s : Driver E) :
    b.values (a.run C F lc s).env = b.values s.env := by
  cases a
  · have h := (hL { ({ s.env with
        freq_ratios := compute_freq_ratios (s.env.frequencies.getD s.env.freqs_index [])
          s.env.states } : Env E) with which_parameters := F.PLL_PARAMETER_FREQUENCIES } hne).trans
      ((values_which b _ _).trans (values_freq_ratios b s.env _))
    exact (values_freq_ratios b _ []).trans h
  · have h := (hB { s.env with which_parameters := F.PLL_PARAMETER_SINGLE_BRANCH } hne).trans
      (values_which b s.env _)
    refine Eq.trans ?_ h
    cases b
    · rfl
    · exact absurd rfl hne
    · rfl
    · rfl
    · rfl
  · exact (hL { s.env with which_parameters := F.PLL_PARAMETER_SUBST_RATES } hne).trans
      (values_which b s.env _)
  · exact (hL { s.env with which_parameters := F.PLL_PARAMETER_ALPHA } hne).trans
      (values_which b s.env _)
  · exact (hL { s.env with which_parameters := F.PLL_PARAMETER_PINV } hne).trans
      (values_which b s.env _)

theorem foldl_run_values {E : Type} (C : Collaborators E) (F : Flags) (lc : Locals) (b : Block)
    (hL : ∀ e : Env E, (Optimizer.lbfgsb, e.which_parameters) ≠ b.signature F →
      b.values (C.pll_optimize_parameters_lbfgsb e).1 = b.values e)
    (hB : ∀ e : Env E, (Optimizer.branch_lengths_iterative, e.which_parameters) ≠ b.signature F →
      b.values (C.pll_optimize_branch_lengths_iterative e).1 = b.values e) :
    ∀ (bs : List Block) (s : Driver E), (∀ a ∈ bs, a.signature F ≠ b.signature F) →
      b.values (bs.foldl (fun st a => a.run C F lc st) s).env = b.values s.env := by
  intro bs
  induction bs with
  | nil => intro s _; rfl
  | cons a bs ih =>
    intro s h
    rw [List.foldl_cons, ih _ (fun x hx => h x (List.mem_cons_of_mem _ hx)),
      run_values C F lc b a hL hB (h a (List.mem_cons_self _ _))]

theorem loop_body_values {E : Type} (C : Collaborators E) (F : Flags) (lc : Locals) (b : Block)
    (hb : lc.parameters_to_optimize &&& b.flag F = 0)
    (hL : ∀ e : Env E, (Optimizer.lbfgsb, e.which_parameters) ≠ b.signature F →
      b.values (C.pll_optimize_parameters_lbfgsb e).1 = b.values e)
    (hB : ∀ e : Env E, (Optimizer.branch_lengths_iterative, e.which_parameters) ≠ b.signature F →
      b.values (C.pll_optimize_branch_lengths_iterative e).1 = b.values e)
    (s : Driver E) : b.values (loop_body C F lc s).env = b.values s.env := by
  rw [loop_body_eq_fold_run,
    foldl_run_values C F lc b hL hB _ _ (signature_not_enabled F _ b hb)]

theorem loop_body_calls {E : Type} (C : Collaborators E) (F : Flags) (lc : Locals)
    (s : Driver E) :
    ∃ new : List (Invocation E),
      (loop_body C F lc s).calls = s.calls ++ new ∧
      new.map Invocation.signature
        = (enabled_blocks F lc.parameters_to_optimize).map (Block.signature F) ∧
      (∀ c ∈ new, c.ret = (c.optimizer.apply C c.arg).2) ∧
      (loop_body C F lc s).cur_logl = (new.getLast?.map (fun i => i.ret)).getD s.cur_logl := by
  rw [loop_body_eq_fold_run]
  exact foldl_run_calls C F lc _ _

theorem after_rounds_calls {E : Type} (C : Collaborators E) (F : Flags) (lc : Locals)
    (s : Driver E)
    (hs : ∀ c ∈ s.calls, c.signature ∈
      (enabled_blocks F lc.parameters_to_optimize).map (Block.signature F)) :
    ∀ k, ∀ c ∈ (after_rounds C F lc s k).calls, c.signature ∈
      (enabled_blocks F lc.parameters_to_optimize).map (Block.signature F) := by
  intro k
  induction k with
  | zero => exact hs
  | succ k ih =>
    intro c hc
    rw [after_rounds_succ] at hc
    obtain ⟨new, h1, h2, _, _⟩ := loop_body_calls C F lc (after_rounds C F lc s k)
    rw [h1, List.mem_append] at hc
    rcases hc with hc | hc
    · exact ih c hc
    · rw [← h2]
      exact List.mem_map_of_mem _ hc

theorem after_rounds_values {E : Type} (C : Collaborators E) (F : Flags) (lc : Locals)
    (b : Block) (hb : lc.parameters_to_optimize &&& b.flag F = 0)
    (hL : ∀ e : Env E, (Optimizer.lbfgsb, e.which_parameters) ≠ b.signature F →
      b.values (C.pll_optimize_parameters_lbfgsb e).1 = b.values e)
    (hB : ∀ e : Env E, (Optimizer.branch_lengths_iterative, e.which_parameters) ≠ b.signature F →
      b.values (C.pll_optimize_branch_lengths_iterative e).1 = b.values e)
    (s : Driver E) :
    ∀ k, b.values (after_rounds C F lc s k).env = b.values s.env := by
  intro k
  induction k with
  | zero => rfl
  | succ k ih => rw [after_rounds_succ, loop_body_values C F lc b hb hL hB, ih]

/-- C2: the loop body is the round of the specification: for each block of the fixed list
whose bit is set, in that order, the optimizer of the block is invoked on the environment
handed over and `cur_logl` is set to the value it returns; the calls made in one round are
exactly that filtered list, each logged value is the value the library routine returns on
the logged argument, and `cur_logl` afterwards is the value returned by the last of them;
a block whose bit is absent is never handed to an optimizer in any round; and if the
routines called for other blocks leave its values alone, its values after any number of
rounds, and when the loop exits, are those at the start. -/
theorem round_invocations_and_frame {E : Type} (C : Collaborators E) (F : Flags) (lc : Locals)
    (syms : List Int) (e0 : Env E) (logl0 : Double) :
    (∀ s : Driver E, loop_body C F lc s = spec_round C F lc s) ∧
    (∀ s : Driver E, ∃ new : List (Invocation E),
      (loop_body C F lc s).calls = s.calls ++ new ∧
      new.map Invocation.signature
        = (Block.fixed_order.filter (fun b => lc.parameters_to_optimize &&& b.flag F ≠ 0)).map
            (Block.signature F) ∧
      (∀ c ∈ new, c.ret = (c.optimizer.apply C c.arg).2) ∧
      (loop_body C F lc s).cur_logl = (new.getLast?.map (fun i => i.ret)).getD s.cur_logl) ∧
    (∀ b : Block, lc.parameters_to_optimize &&& b.flag F = 0 →
      ∀ k, ∀ c ∈ (after_rounds C F lc (driver_init lc syms e0 logl0) k).calls,
        c.signature ≠ b.signature F) ∧
    (∀ b : Block, lc.parameters_to_optimize &&& b.flag F = 0 →
      (∀ e : Env E, (Optimizer.lbfgsb, e.which_parameters) ≠ b.signature F →
        b.values (C.pll_optimize_parameters_lbfgsb e).1 = b.values e) →
      (∀ e : Env E, (Optimizer.branch_lengths_iterative, e.which_parameters) ≠ b.signature F →
        b.values (C.pll_optimize_branch_lengths_iterative e).1 = b.values e) →
      (∀ k, b.values (after_rounds C F lc (driver_init lc syms e0 logl0) k).env
          = b.values (driver_init lc syms e0 logl0).env) ∧
      (∀ fuel n r, main_loop C F lc fuel 0 (driver_init lc syms e0 logl0) = some (n, r) →
        b.values r.env = b.values (driver_init lc syms e0 logl0).env)) := by
  refine ⟨loop_body_eq_spec_round C F lc, loop_body_calls C F lc, ?_, ?_⟩
  · intro b hb k c hc e
    have hmem := after_rounds_calls C F lc (driver_init lc syms e0 logl0)
      (fun c hc => by cases hc) k c hc
    rw [List.mem_map] at hmem
    obtain ⟨a, ha, hae⟩ := hmem
    exact signature_not_enabled F _ b hb a ha (hae.trans e)
  · intro b hb hL hB
    refine ⟨after_rounds_values C F lc b hb hL hB _, ?_⟩
    intro fuel n r h
    obtain ⟨k, _, h2, _, _⟩ := main_loop_result C F lc fuel 0 n _ r h
    rw [h2]
    exact after_rounds_values C F lc b hb hL hB _ k

theorem run_central {E : Type} (C : Collaborators E) (F : Flags) (lc : Locals)
    (hL : ∀ e : Env E,
      (C.pll_optimize_parameters_lbfgsb e).1.where_unrooted_t = e.where_unrooted_t)
    (b : Block) (s : Driver E)
    (h1 : s.env.where_unrooted_t = central_edge lc)
    (h2 : ∀ c ∈ s.calls, c.optimizer = .lbfgsb → c.arg.where_unrooted_t = central_edge lc) :
    (b.run C F lc s).env.where_unrooted_t = central_edge lc ∧
    ∀ c ∈ (b.run C F lc s).calls, c.optimizer = .lbfgsb →
      c.arg.where_unrooted_t = central_edge lc := by
  cases b
  · constructor
    · exact (hL _).trans h1
    · intro c hc ho
      rcases List.mem_append.1 hc with hc | hc
      · exact h2 c hc ho
      · rw [List.mem_singleton] at hc
        subst hc
        exact h1
  · constructor
    · rfl
    · intro c hc ho
      rcases List.mem_append.1 hc with hc | hc
      · exact h2 c hc ho
      · rw [List.mem_singleton] at hc
        subst hc
        cases ho
  all_goals
    constructor
    · exact (hL _).trans h1
    · intro c hc ho
      rcases List.mem_append.1 hc with hc | hc
      · exact h2 c hc ho
      · rw [List.mem_singleton] at hc
        subst hc
        exact h1

theorem foldl_run_central {E : Type} (C : Collaborators E) (F : Flags) (lc : Locals)
    (hL : ∀ e : Env E,
      (C.pll_optimize_parameters_lbfgsb e).1.where_unrooted_t = e.where_unrooted_t) :
    ∀ (bs : List Block) (s : Driver E),
      s.env.where_unrooted_t = central_edge lc →
      (∀ c ∈ s.calls, c.optimizer = .lbfgsb → c.arg.where_unrooted_t = central_edge lc) →
      (bs.foldl (fun st b => b.run C F lc st) s).env.where_unrooted_t = central_edge lc ∧
      ∀ c ∈ (bs.foldl (fun st b => b.run C F lc st) s).calls, c.optimizer = .lbfgsb →
        c.arg.where_unrooted_t = central_edge lc := by
  intro bs
  induction bs with
  | nil => intro s h1 h2; exact ⟨h1, h2⟩
  | cons b bs ih =>
    intro s h1 h2
    obtain ⟨h3, h4⟩ := run_central C F lc hL b s h1 h2
    exact ih _ h3 h4

theorem after_rounds_central {E : Type} (C : Collaborators E) (F : Flags) (lc : Locals)
    (hL : ∀ e : Env E,
      (C.pll_optimize_parameters_lbfgsb e).1.where_unrooted_t = e.where_unrooted_t)
    (s : Driver E) (h1 : s.env.where_unrooted_t = central_edge lc)
    (h2 : ∀ c ∈ s.calls, c.optimizer = .lbfgsb → c.arg.where_unrooted_t = central_edge lc) :
    ∀ k, (after_rounds C F lc s k).env.where_unrooted_t = central_edge lc ∧
      ∀ c ∈ (after_rounds C F lc s k).calls, c.optimizer = .lbfgsb →
        c.arg.where_unrooted_t = central_edge lc := by
  intro k
  induction k with
  | zero => exact ⟨h1, h2⟩
  | succ k ih =>
    rw [after_rounds_succ, loop_body_eq_fold_run]
    exact foldl_run_central C F lc hL _ _ ih.1 ih.2

/-- C7: whatever the branch-length routine does, right after every branch-length step the
five central-edge identifiers in `params` are those of the initial traversal; and, the
L-BFGS-B routine leaving them alone, they are the initial ones at every L-BFGS-B call of
every round. -/
theorem central_edge_restored {E : Type} (C : Collaborators E) (F : Flags) (lc : Locals)
    (syms : List Int) (e0 : Env E) (logl0 : Double) :
    (driver_init lc syms e0 logl0).env.where_unrooted_t = central_edge lc ∧
    (∀ s : Driver E,
      (optimize_branches C F lc s).env.where_unrooted_t.parent_clv_index = lc.clv1 ∧
      (optimize_branches C F lc s).env.where_unrooted_t.parent_scaler_index = lc.scaler1 ∧
      (optimize_branches C F lc s).env.where_unrooted_t.child_clv_index = lc.clv2 ∧
      (optimize_branches C F lc s).env.where_unrooted_t.child_scaler_index = lc.scaler2 ∧
      (optimize_branches C F lc s).env.where_unrooted_t.edge_pmatrix_index
        = lc.edge_pmatrix_index) ∧
    (lbfgsb_keeps_central_edge C →
      ∀ k, ∀ c ∈ (after_rounds C F lc (driver_init lc syms e0 logl0) k).calls,
        c.optimizer = .lbfgsb → c.arg.where_unrooted_t = central_edge lc) := by
  refine ⟨rfl, fun s => ⟨rfl, rfl, rfl, rfl, rfl⟩, ?_⟩
  intro hL k
  exact (after_rounds_central C F lc hL _ rfl (fun c hc => by cases hc) k).2

theorem getD_concat_last (init : List ℚ) (l : ℚ) : (init ++ [l]).getD init.length 0 = l := by
  rw [List.getD_eq_getElem _ _ (by simp), List.getElem_append_right (le_refl _)]
  simp

theorem getD_concat_init (init : List ℚ) (l : ℚ) (i : Nat) (h : i < init.length) :
    (init ++ [l]).getD i 0 = init[i] := by
  rw [List.getD_eq_getElem _ _ (by simp; omega), List.getElem_append_left h]

theorem compute_freq_ratios_concat (init : List ℚ) (l : ℚ) :
    compute_freq_ratios (init ++ [l]) (init.length + 1) = init.map (fun x => x / l) := by
  unfold compute_freq_ratios
  apply List.ext_getElem
  · simp
  · intro i h1 h2
    simp only [List.length_map, List.length_range, Nat.add_sub_cancel] at h1
    simp only [List.getElem_map, List.getElem_range, Nat.add_sub_cancel]
    rw [getD_concat_last, getD_concat_init init l i h1]

theorem sum_map_div (l : List ℚ) (d : ℚ) : (l.map (fun x => x / d)).sum = l.sum / d := by
  induction l with
  | nil => simp
  | cons a l ih => simp [ih, add_div]

/-- C8: for every vector of `states` positive frequencies that sum to 1, computing the
ratios as the driver does and normalising `[r_0, ..., r_{states-2}, 1]` gives the vector
back. -/
theorem frequency_round_trip (f : List ℚ) (states : Nat) (hlen : f.length = states)
    (hpos : ∀ x ∈ f, 0 < x) (hsum : f.sum = 1) :
    ratios_to_frequencies (compute_freq_ratios f states) = f := by
  have hne : f ≠ [] := by
    intro h
    rw [h] at hsum
    simp at hsum
  obtain ⟨init, l, rfl⟩ : ∃ init l, f = init ++ [l] :=
    ⟨f.dropLast, f.getLast hne, (List.dropLast_append_getLast hne).symm⟩
  have hl : 0 < l := hpos l (by simp)
  have hstates : states = init.length + 1 := by simp at hlen; omega
  subst hstates
  rw [compute_freq_ratios_concat]
  unfold ratios_to_frequencies
  have h1 : init.map (fun x => x / l) ++ [1] = (init ++ [l]).map (fun x => x / l) := by
    simp [div_self hl.ne']
  rw [h1, sum_map_div, hsum, List.map_map]
  conv_rhs => rw [← List.map_id (init ++ [l])]
  apply List.map_congr_left
  intro x _
  simp only [Function.comp, id]
  field_simp

/-! ## Concrete runs -/

theorem constant_body_cur (v : Double) (s : Driver Unit) :
    (loop_body (constant_collaborators v) example_flags example_locals s).cur_logl = v := rfl

theorem constant_body_env (v : Double) (s : Driver Unit) :
    (loop_body (constant_collaborators v) example_flags example_locals s).env.alpha_value
      = s.env.alpha_value ∧
    (loop_body (constant_collaborators v) example_flags example_locals s).env.prop_invar
      = s.env.prop_invar ∧
    (loop_body (constant_collaborators v) example_flags example_locals s).env.subst_params
      = s.env.subst_params :=
  ⟨rfl, rfl, rfl⟩

theorem constant_rounds_cur (v logl0 : Double) (k : Nat) :
    (after_rounds (constant_collaborators v) example_flags example_locals
      (driver_init example_locals [] example_env logl0) (k + 1)).cur_logl = v := by
  rw [after_rounds_succ, constant_body_cur]

theorem init_logl_100 :
    (driver_init example_locals [] example_env (.fin (-100))).logl = .fin 100 := by
  show Double.fin (-(-100)) = .fin 100
  norm_num

theorem init_cur_110 :
    (driver_init example_locals [] example_env (.fin (-100))).cur_logl = .fin 110 := by
  show round_to_double (-(-100) + 10) = .fin 110
  have h : (-(-100) + 10 : ℚ) = ((110 : ℤ) : ℚ) := by norm_num
  rw [h, round_to_double_int 110 (by norm_num)]
  norm_num

theorem init_test_100 :
    loop_test (driver_init example_locals [] example_env (.fin (-100))) = true := by
  rw [loop_test_of_int _ 110 100 10 init_cur_110 init_logl_100 (by norm_num) (by norm_num)]
  norm_num

theorem constant_first_test :
    loop_test (after_rounds (constant_collaborators (.fin 100)) example_flags example_locals
      (driver_init example_locals [] example_env (.fin (-100))) 1) = true := by
  rw [loop_test_of_int _ 100 110 (-10) (constant_rounds_cur _ _ 0)
    (by rw [after_rounds_logl]; exact init_cur_110) (by norm_num) (by norm_num)]
  norm_num

theorem constant_second_test :
    loop_test (after_rounds (constant_collaborators (.fin 100)) example_flags example_locals
      (driver_init example_locals [] example_env (.fin (-100))) 2) = false :=
  loop_test_small _ 100 100 (constant_rounds_cur _ _ 1)
    (by rw [after_rounds_logl]; exact constant_rounds_cur _ _ 0) (by norm_num)

theorem constant_two_rounds :
    main_loop (constant_collaborators (.fin 100)) example_flags example_locals 3 0
        (driver_init example_locals [] example_env (.fin (-100)))
      = some (2, after_rounds (constant_collaborators (.fin 100)) example_flags example_locals
          (driver_init example_locals [] example_env (.fin (-100))) 2) := by
  have h := main_loop_of_stop (constant_collaborators (.fin 100)) example_flags example_locals
    2 3 0 (driver_init example_locals [] example_env (.fin (-100)))
    (fun j hj => by
      have : j = 0 ∨ j = 1 := by omega
      rcases this with rfl | rfl
      · exact init_test_100
      · exact constant_first_test)
    constant_second_test (by omega)
  rw [h]
  rfl

theorem absorbed_init_test :
    loop_test (driver_init example_locals [] example_env (.fin (-(2 ^ (60 : ℕ))))) = false := by
  have hl : (driver_init example_locals [] example_env (.fin (-(2 ^ (60 : ℕ))))).logl
      = .fin (2 ^ (60 : ℕ)) := by
    show Double.fin (-(-(2 ^ (60 : ℕ)))) = _
    rw [neg_neg]
  have hc : (driver_init example_locals [] example_env (.fin (-(2 ^ (60 : ℕ))))).cur_logl
      = .fin (2 ^ (60 : ℕ)) := by
    show round_to_double (-(-(2 ^ (60 : ℕ))) + 10) = _
    rw [neg_neg]
    exact sentinel_absorbed
  exact loop_test_small _ _ _ hc hl (by norm_num)

/-- C1, counterexample: the optimizers return 100 whenever called and the starting
log-likelihood is -100, so the first round returns exactly the negated starting
log-likelihood; yet the loop runs two rounds, and for no amount of fuel does it stop
after one. -/
theorem driver_first_round_counterexample :
    (driver_init example_locals [] example_env (.fin (-100))).logl = .fin 100 ∧
    (after_rounds (constant_collaborators (.fin 100)) example_flags example_locals
        (driver_init example_locals [] example_env (.fin (-100))) 1).cur_logl = .fin 100 ∧
    main_loop (constant_collaborators (.fin 100)) example_flags example_locals 3 0
        (driver_init example_locals [] example_env (.fin (-100)))
      = some (2, after_rounds (constant_collaborators (.fin 100)) example_flags example_locals
          (driver_init example_locals [] example_env (.fin (-100))) 2) ∧
    ¬ ∃ fuel r, main_loop (constant_collaborators (.fin 100)) example_flags example_locals
        fuel 0 (driver_init example_locals [] example_env (.fin (-100))) = some (1, r) := by
  refine ⟨init_logl_100, constant_rounds_cur _ _ 0, constant_two_rounds, ?_⟩
  rintro ⟨fuel, r, h⟩
  obtain ⟨k, h1, h2, h3, _⟩ := main_loop_result _ _ _ fuel 0 1 _ r h
  have hk : k = 1 := by omega
  subst hk
  rw [h2] at h3
  have := constant_first_test
  unfold after_rounds at this
  rw [this] at h3
  cases h3

/-- C1, instance of the amended rule: the optimizers return 110 and the starting
log-likelihood is -100, so the loop is entered and the first round returns the initial
`current` (the negated starting log-likelihood plus 10); the loop stops after exactly
one round. -/
theorem driver_convergence_rule_witness :
    loop_test (driver_init example_locals [] example_env (.fin (-100))) = true ∧
    (driver_init example_locals [] example_env (.fin (-100))).cur_logl = .fin 110 ∧
    (after_rounds (constant_collaborators (.fin 110)) example_flags example_locals
        (driver_init example_locals [] example_env (.fin (-100))) 1).cur_logl = .fin 110 ∧
    main_loop (constant_collaborators (.fin 110)) example_flags example_locals 2 0
        (driver_init example_locals [] example_env (.fin (-100)))
      = some (1, after_rounds (constant_collaborators (.fin 110)) example_flags example_locals
          (driver_init example_locals [] example_env (.fin (-100))) 1) :=
  ⟨init_test_100, init_cur_110, constant_rounds_cur _ _ 0,
    (driver_convergence_rule (constant_collaborators (.fin 110)) example_flags
      example_locals [] example_env (.fin (-100))).2.2.2.2.2.2.2 110 110 init_test_100
      init_cur_110 (constant_rounds_cur _ _ 0) (by norm_num) 2 (le_refl _)⟩

/-- C2, instance: under the shipped configuration (p-inv bit absent), with optimizers that
change the environment and return a different value at each call, one round calls
frequencies, branch lengths, substitution rates and alpha in that order, `cur_logl` ends
as the value returned by the alpha call, alpha has been halved three times, and p-inv
keeps its starting value through any number of rounds. -/
theorem round_invocations_and_frame_witness :
    example_locals.parameters_to_optimize &&& Block.pinv.flag example_flags = 0 ∧
    ((loop_body probing_collaborators example_flags example_locals
        (driver_init example_locals [] example_env (.fin (-100)))).calls.map
          (fun c => (c.optimizer, c.arg.which_parameters, c.ret))
      = [(Optimizer.lbfgsb, 8, .fin 58), (Optimizer.branch_lengths_iterative, 32, .fin 60),
         (Optimizer.lbfgsb, 1, .fin 51), (Optimizer.lbfgsb, 2, .fin 52)]) ∧
    (loop_body probing_collaborators example_flags example_locals
        (driver_init example_locals [] example_env (.fin (-100)))).cur_logl = .fin 52 ∧
    (loop_body probing_collaborators example_flags example_locals
        (driver_init example_locals [] example_env (.fin (-100)))).env.alpha_value
      = 1 / 10 / 2 / 2 / 2 ∧
    ((∀ k, Block.pinv.values (after_rounds probing_collaborators example_flags
          example_locals (driver_init example_locals [] example_env (.fin (-100))) k).env
        = Block.pinv.values (driver_init example_locals [] example_env (.fin (-100))).env) ∧
     (∀ fuel n r, main_loop probing_collaborators example_flags example_locals fuel 0
          (driver_init example_locals [] example_env (.fin (-100))) = some (n, r) →
        Block.pinv.values r.env
          = Block.pinv.values (driver_init example_locals [] example_env (.fin (-100))).env)) :=
  ⟨by decide, rfl, rfl, rfl,
    (round_invocations_and_frame probing_collaborators example_flags example_locals []
      example_env (.fin (-100))).2.2.2 Block.pinv (by decide) (fun _ _ => rfl) (fun _ _ => rfl)⟩

/-- C6, evaluation: with optimizers that return 100 and starting log-likelihood -100 the
loop exits with `cur_logl = 100`; the first line labelled Final Log-L carries -100 (the
negation of `cur_logl`), the last line labelled Final Log-L carries 100 (the variable
`logl`, not negated). For every state the two values are `-cur_logl` and `logl`. -/
theorem final_logl_reports :
    main_optimize (constant_collaborators (.fin 100)) example_flags example_locals []
        example_env (.fin (-100)) 3
      = some [ ("Final Log-L", [.fin (-100)]), ("Alpha", [.fin (1 / 10)]), ("P-inv", [.fin 0]),
               ("Rates", [.fin 1, .fin 1, .fin 1, .fin 1, .fin 1, .fin 1]),
               ("Final Log-L", [.fin 100]) ] ∧
    ∀ s : Driver Unit,
      (main_report s).head? = some ("Final Log-L", [Double.neg s.cur_logl]) ∧
      (main_report s).getLast? = some ("Final Log-L", [s.logl]) := by
  constructor
  · unfold main_optimize
    rw [constant_two_rounds]
    show some (main_report (after_rounds (constant_collaborators (.fin 100)) example_flags
      example_locals (driver_init example_locals [] example_env (.fin (-100))) 2)) = _
    have hc := constant_rounds_cur (.fin 100) (.fin (-100)) 1
    have hl := after_rounds_logl (constant_collaborators (.fin 100)) example_flags
      example_locals (driver_init example_locals [] example_env (.fin (-100))) 1
    rw [constant_rounds_cur] at hl
    have he1 := constant_body_env (.fin 100) (after_rounds (constant_collaborators (.fin 100))
      example_flags example_locals (driver_init example_locals [] example_env (.fin (-100))) 1)
    rw [← after_rounds_succ] at he1
    have he0 := constant_body_env (.fin 100)
      (driver_init example_locals [] example_env (.fin (-100)))
    have h1 : after_rounds (constant_collaborators (.fin 100)) example_flags example_locals
        (driver_init example_locals [] example_env (.fin (-100))) 1
        = loop_body (constant_collaborators (.fin 100)) example_flags example_locals
          (driver_init example_locals [] example_env (.fin (-100))) := rfl
    rw [← h1] at he0
    unfold main_report
    simp only [hc, hl, he1.1, he1.2.1, he1.2.2, he0.1, he0.2.1, he0.2.2]
    have hr : List.range 6 = [0, 1, 2, 3, 4, 5] := by decide
    rw [hr]
    simp [driver_init, example_env, Double.neg]
  · intro s
    constructor
    · simp [main_report]
    · simp [main_report]

/-- C7, instance: the branch-length routine overwrites the five identifiers with 7, the
L-BFGS-B routine leaves them alone; after the branch-length step they are again those of
the locals, and every L-BFGS-B call of every round sees those. -/
theorem central_edge_restored_witness :
    lbfgsb_keeps_central_edge (rerooting_collaborators (.fin 100)) ∧
    (optimize_branches (rerooting_collaborators (.fin 100)) example_flags example_locals
        (driver_init example_locals [] example_env (.fin (-100)))).env.where_unrooted_t
      = ⟨4, 0, 1, -1, 0⟩ ∧
    ∀ k, ∀ c ∈ (after_rounds (rerooting_collaborators (.fin 100)) example_flags example_locals
        (driver_init example_locals [] example_env (.fin (-100))) k).calls,
      c.optimizer = .lbfgsb → c.arg.where_unrooted_t = central_edge example_locals :=
  ⟨fun _ => rfl, rfl,
    (central_edge_restored (rerooting_collaborators (.fin 100)) example_flags example_locals []
      example_env (.fin (-100))).2.2 (fun _ => rfl)⟩

/-- C8, instance: the frequencies 1/10, 2/10, 3/10, 4/10 give the ratios 1/4, 1/2, 3/4 and
come back unchanged. -/
theorem frequency_round_trip_witness :
    ([1 / 10, 2 / 10, 3 / 10, 4 / 10] : List ℚ).length = 4 ∧
    (∀ x ∈ ([1 / 10, 2 / 10, 3 / 10, 4 / 10] : List ℚ), 0 < x) ∧
    ([1 / 10, 2 / 10, 3 / 10, 4 / 10] : List ℚ).sum = 1 ∧
    ratios_to_frequencies (compute_freq_ratios [1 / 10, 2 / 10, 3 / 10, 4 / 10] 4)
      = [1 / 10, 2 / 10, 3 / 10, 4 / 10] := by
  have h1 : ([1 / 10, 2 / 10, 3 / 10, 4 / 10] : List ℚ).length = 4 := rfl
  have h2 : ∀ x ∈ ([1 / 10, 2 / 10, 3 / 10, 4 / 10] : List ℚ), 0 < x := by
    intro x hx
    simp only [List.mem_cons, List.mem_singleton, List.not_mem_nil, or_false] at hx
    rcases hx with rfl | rfl | rfl | rfl <;> norm_num
  have h3 : ([1 / 10, 2 / 10, 3 / 10, 4 / 10] : List ℚ).sum = 1 := by
    norm_num
  exact ⟨h1, h2, h3, frequency_round_trip _ 4 h1 h2 h3⟩

/-- C9, evaluation: on the tree (a,b:0.5,c) with the lengths of a and c missing, the call
`set_missing_branch_length (tree, 0.00001)` of `main` sets the missing lengths to
0.000001, not to the argument 0.00001; the length 0.5 is left as it is. -/
theorem set_missing_branch_length_ignores_argument :
    set_missing_branch_length 3 (example_tree 0 (1 / 2) 0) 0 (1 / 100000)
      = some (example_tree (1 / 1000000) (1 / 2) (1 / 1000000)) ∧
    example_tree (1 / 1000000) (1 / 2) (1 / 1000000)
      ≠ example_tree (1 / 100000) (1 / 2) (1 / 100000) := by
  constructor
  · simp [set_missing_branch_length, set_missing_branch_length_recursive, example_tree]
  · simp [example_tree]

/-- C10, counterexample: the optimizers return 100 at every call, so the round values
are constant, finite and bounded below; with starting log-likelihood minus infinity the
sum `s + 10` is infinite and the entry test compares NaN, with starting log-likelihood
`-2 ^ 60` the sum `s + 10` rounds back to `s`; in both cases the loop exits at once and
no round is executed. -/
theorem driver_zero_rounds_counterexample :
    (∀ k, 1 ≤ k →
      (after_rounds (constant_collaborators (.fin 100)) example_flags example_locals
        (driver_init example_locals [] example_env .ninf) k).cur_logl = .fin 100) ∧
    main_loop (constant_collaborators (.fin 100)) example_flags example_locals 5 0
        (driver_init example_locals [] example_env .ninf)
      = some (0, driver_init example_locals [] example_env .ninf) ∧
    (∀ k, 1 ≤ k →
      (after_rounds (constant_collaborators (.fin 100)) example_flags example_locals
        (driver_init example_locals [] example_env (.fin (-(2 ^ (60 : ℕ))))) k).cur_logl
        = .fin 100) ∧
    main_loop (constant_collaborators (.fin 100)) example_flags example_locals 5 0
        (driver_init example_locals [] example_env (.fin (-(2 ^ (60 : ℕ)))))
      = some (0, driver_init example_locals [] example_env (.fin (-(2 ^ (60 : ℕ))))) := by
  refine ⟨?_, ?_, ?_, ?_⟩
  · intro k hk
    obtain ⟨j, rfl⟩ : ∃ j, k = j + 1 := ⟨k - 1, by omega⟩
    exact constant_rounds_cur _ _ j
  · exact main_loop_stop _ _ _ 4 0 _ rfl
  · intro k hk
    obtain ⟨j, rfl⟩ : ∃ j, k = j + 1 := ⟨k - 1, by omega⟩
    exact constant_rounds_cur _ _ j
  · exact main_loop_stop _ _ _ 4 0 _ absorbed_init_test

/-- C10, instance of the amended claim: optimizers that return 100 at every call give the
constant sequence 100, 100, ...; with lower bound 100 and starting log-likelihood -100
the loop stops within floor (0 / 0.01) + 2 = 2 rounds, and it runs at least one round
because the entry test is true. -/
theorem driver_terminates_monotone_witness :
    (∀ k, 1 ≤ k →
      (after_rounds (constant_collaborators (.fin 100)) example_flags example_locals
        (driver_init example_locals [] example_env (.fin (-100))) k).cur_logl
        = .fin ((fun _ => (100 : ℚ)) k)) ∧
    loop_test (driver_init example_locals [] example_env (.fin (-100))) = true ∧
    ∃ n : Nat,
      (n : ℤ) ≤ ⌊((100 : ℚ) - 100) / (1 / 100)⌋ + 2 ∧
      (1 ≤ n ↔ loop_test (driver_init example_locals [] example_env (.fin (-100))) = true) ∧
      ∀ fuel, n < fuel →
        main_loop (constant_collaborators (.fin 100)) example_flags example_locals fuel 0
            (driver_init example_locals [] example_env (.fin (-100)))
          = some (n, after_rounds (constant_collaborators (.fin 100)) example_flags
              example_locals (driver_init example_locals [] example_env (.fin (-100))) n) := by
  have h1 : ∀ k, 1 ≤ k →
      (after_rounds (constant_collaborators (.fin 100)) example_flags example_locals
        (driver_init example_locals [] example_env (.fin (-100))) k).cur_logl
        = .fin ((fun _ => (100 : ℚ)) k) := by
    intro k hk
    obtain ⟨j, rfl⟩ : ∃ j, k = j + 1 := ⟨k - 1, by omega⟩
    exact constant_rounds_cur _ _ j
  exact ⟨h1, init_test_100,
    driver_terminates_monotone (constant_collaborators (.fin 100)) example_flags
      example_locals [] example_env (.fin (-100)) (fun _ => 100) 100 h1
      (fun _ _ => le_refl _) (fun _ _ => le_refl _)⟩

end PllLbfgsb
